import Mathlib

/-!
# Graceful shutdown coordinators

A shallow embedding of the two shutdown coordinators of the repository:

* `shutdown` (file `shutdown/shutdown.go`): the barrier coordinator. A manager
  triggers `StartShutdown`, which runs the manager's pre-hook, one goroutine per
  registered callback, waits on a `sync.WaitGroup`, and runs the post-hook.
* `cgracefulshutdown` (file `shutdown/cgracefulshutdown/c.go`): the coordinator
  driven by a cancellable context and guarded by a mutex and a boolean.

Conventions of the embedding.

* A Go `error` is `Option GoError`: `none` is `nil`, `some msg` is a non-nil
  error whose `Error()` text is `msg`.
* The interfaces (`ShutdownCallback`, `ShutdownManager`, `ErrorHandler`) are
  implemented outside the coordinators. An implementation is modelled by the
  results its methods return; every call the coordinator makes on one of them is
  recorded, in order, in a trace of `Event`s.
* Methods with a pointer receiver take the structure and return it.
* Goroutines are threads of a small-step machine. `step` runs one step of the
  thread chosen by the scheduler and is `none` when that thread cannot move;
  `run` follows a whole schedule. Statements quantify over all schedules.
-/

/-- A non-nil Go error, identified by the text its `Error()` method returns. -/
abbrev GoError := String

/-! ## The barrier coordinator: data model and operations -/

namespace shutdown

/-- The interface `ShutdownCallback`: the result of `OnShutdown(name)`. -/
structure ShutdownCallback where
  OnShutdown : String → Option GoError

/-- `ShutdownFunc`: a function used as a `ShutdownCallback`; `OnShutdown` calls it. -/
def ShutdownFunc (f : String → Option GoError) : ShutdownCallback :=
  { OnShutdown := fun shutdownManager => f shutdownManager }

/-- The interface `ShutdownManager`: the name and the results of its three methods. -/
structure ShutdownManager where
  GetName : String
  Start : Option GoError
  ShutdownStart : Option GoError
  ShutdownFinish : Option GoError

/-- The interface `ErrorHandler`. `OnError` returns nothing; a handler is told apart
by a label so that the trace records which handler received an error. -/
structure ErrorHandler where
  label : String
deriving DecidableEq, Repr

/-- The struct `GracefulShutdown`. A nil `errorHandler` is `none`. -/
structure GracefulShutdown where
  callbacks : List ShutdownCallback
  managers : List ShutdownManager
  errorHandler : Option ErrorHandler

/-- Calls made by `StartShutdown` and `ReportError` on the collaborators.
`OnShutdown i arg` is the entry into `callbacks[i].OnShutdown(arg)` and
`OnShutdownReturn i r` its return with result `r`. -/
inductive Event where
  | ShutdownStart
  | OnShutdown (i : Nat) (arg : String)
  | OnShutdownReturn (i : Nat) (r : Option GoError)
  | ShutdownFinish
  | OnError (h : ErrorHandler) (err : GoError)
deriving DecidableEq, Repr

/-- A call `managers[index].Start(gs)` made by `Start`, with the coordinator passed. -/
structure StartCall where
  index : Nat
  gs : GracefulShutdown

/-- `New`: empty registries, no error handler. -/
def New : GracefulShutdown :=
  { callbacks := [], managers := [], errorHandler := none }

/-- `AddShutdownManager`: `gs.managers = append(gs.managers, manager)`. -/
def AddShutdownManager (gs : GracefulShutdown) (manager : ShutdownManager) :
    GracefulShutdown :=
  { gs with managers := gs.managers ++ [manager] }

/-- `AddShutdownCallback`: `gs.callbacks = append(gs.callbacks, shutdownCallback)`. -/
def AddShutdownCallback (gs : GracefulShutdown) (shutdownCallback : ShutdownCallback) :
    GracefulShutdown :=
  { gs with callbacks := gs.callbacks ++ [shutdownCallback] }

/-- `SetErrorHandler`: `gs.errorHandler = errorHandler` (the argument may be nil). -/
def SetErrorHandler (gs : GracefulShutdown) (errorHandler : Option ErrorHandler) :
    GracefulShutdown :=
  { gs with errorHandler := errorHandler }

/-- `ReportError`: `if err != nil && gs.errorHandler != nil { gs.errorHandler.OnError(err) }`.
Returns the coordinator and the calls made. -/
def ReportError (gs : GracefulShutdown) (err : Option GoError) :
    GracefulShutdown × List Event :=
  match err, gs.errorHandler with
  | some e, some h => (gs, [Event.OnError h e])
  | _, _ => (gs, [])

/-- The loop of `Start` over the managers still to be started; `i` is the index of the
head of the list and `log` the calls made so far. -/
def Start.loop (gs : GracefulShutdown) :
    List ShutdownManager → Nat → List StartCall → Option GoError × List StartCall
  | [], _, log => (none, log)
  | manager :: rest, i, log =>
    match manager.Start with
    | some err => (some err, log ++ [⟨i, gs⟩])
    | none => Start.loop gs rest (i + 1) (log ++ [⟨i, gs⟩])

/-- `Start`: `for _, manager := range gs.managers`, returning the first error. The
result is the error returned and the `Start` calls made, in order. -/
def Start (gs : GracefulShutdown) : Option GoError × List StartCall :=
  Start.loop gs gs.managers 0 []

/-- Program counter of the goroutine that runs the body of `StartShutdown`. -/
inductive MainPc where
  /-- About to call `sm.ShutdownStart()`. -/
  | pre
  /-- `sm.ShutdownStart()` returned `r`; about to call `gs.ReportError(r)`. -/
  | preReport (r : Option GoError)
  /-- At the head of `for _, shutdownCallback := range gs.callbacks`, `k` iterations done. -/
  | loop (k : Nat)
  /-- At `wg.Wait()`. -/
  | wait
  /-- About to call `sm.ShutdownFinish()`. -/
  | post
  /-- `sm.ShutdownFinish()` returned `r`; about to call `gs.ReportError(r)`. -/
  | postReport (r : Option GoError)
  /-- `StartShutdown` has returned. -/
  | ret
deriving DecidableEq, Repr

/-- Program counter of a goroutine `go func(shutdownCallback ShutdownCallback) {...}`. -/
inductive GoPc where
  /-- Spawned; about to evaluate `sm.GetName()` and call `OnShutdown`. -/
  | start
  /-- Inside `shutdownCallback.OnShutdown(arg)`. -/
  | called (arg : String)
  /-- `OnShutdown` returned `r`; about to call `gs.ReportError(r)`. -/
  | returned (r : Option GoError)
  /-- `ReportError` returned; the deferred `wg.Done()` is pending. -/
  | reported
  /-- The goroutine has finished. -/
  | done
deriving DecidableEq, Repr

/-- A spawned goroutine: the callback it received as argument, the position of that
callback in `gs.callbacks`, and its program counter. -/
structure Goroutine where
  shutdownCallback : ShutdownCallback
  index : Nat
  pc : GoPc

/-- State of one execution of `StartShutdown(sm)`: the coordinator, the triggering
manager, the main goroutine, the spawned goroutines in spawn order, the counter of the
`sync.WaitGroup`, and the calls made so far. -/
structure State where
  gs : GracefulShutdown
  sm : ShutdownManager
  main : MainPc
  gos : List Goroutine
  wg : Nat
  trace : List Event

/-- A thread the scheduler can pick: the main goroutine or the `i`-th spawned one. -/
inductive Tid where
  | main
  | go (i : Nat)
deriving DecidableEq, Repr

/-- One step of the main goroutine of `StartShutdown`; `none` when it is blocked at
`wg.Wait()` or has returned. -/
def stepMain (s : State) : Option State :=
  match s.main with
  | .pre =>
    some { s with trace := s.trace ++ [Event.ShutdownStart],
                  main := .preReport s.sm.ShutdownStart }
  | .preReport r =>
    some { s with gs := (ReportError s.gs r).1, trace := s.trace ++ (ReportError s.gs r).2,
                  main := .loop 0 }
  | .loop k =>
    match s.gs.callbacks[k]? with
    | some shutdownCallback =>
      some { s with wg := s.wg + 1, gos := s.gos ++ [⟨shutdownCallback, k, .start⟩],
                    main := .loop (k + 1) }
    | none => some { s with main := .wait }
  | .wait => if s.wg = 0 then some { s with main := .post } else none
  | .post =>
    some { s with trace := s.trace ++ [Event.ShutdownFinish],
                  main := .postReport s.sm.ShutdownFinish }
  | .postReport r =>
    some { s with gs := (ReportError s.gs r).1, trace := s.trace ++ (ReportError s.gs r).2,
                  main := .ret }
  | .ret => none

/-- One step of the `i`-th spawned goroutine; `none` when it does not exist or has
finished. -/
def stepGo (s : State) (i : Nat) : Option State :=
  match s.gos[i]? with
  | none => none
  | some g =>
    match g.pc with
    | .start =>
      some { s with trace := s.trace ++ [Event.OnShutdown g.index s.sm.GetName],
                    gos := s.gos.set i { g with pc := .called s.sm.GetName } }
    | .called arg =>
      some { s with trace := s.trace ++
                      [Event.OnShutdownReturn g.index (g.shutdownCallback.OnShutdown arg)],
                    gos := s.gos.set i
                      { g with pc := .returned (g.shutdownCallback.OnShutdown arg) } }
    | .returned r =>
      some { s with gs := (ReportError s.gs r).1, trace := s.trace ++ (ReportError s.gs r).2,
                    gos := s.gos.set i { g with pc := .reported } }
    | .reported =>
      some { s with wg := s.wg - 1, gos := s.gos.set i { g with pc := .done } }
    | .done => none

/-- One step of the thread picked by the scheduler. -/
def step (s : State) : Tid → Option State
  | .main => stepMain s
  | .go i => stepGo s i

/-- Follow a schedule; `none` when it picks a thread that cannot move. -/
def run (s : State) : List Tid → Option State
  | [] => some s
  | t :: rest =>
    match step s t with
    | some s1 => run s1 rest
    | none => none

/-- State at the call `gs.StartShutdown(sm)`, with `trace` the calls made before it. -/
def init (gs : GracefulShutdown) (sm : ShutdownManager) (trace : List Event) : State :=
  { gs := gs, sm := sm, main := .pre, gos := [], wg := 0, trace := trace }

/-- `StartShutdown` under a schedule: the state the schedule leads to. -/
def StartShutdown (gs : GracefulShutdown) (sm : ShutdownManager) (trace : List Event)
    (schedule : List Tid) : Option State :=
  run (init gs sm trace) schedule

/-- The schedule that runs the callbacks one after the other: the main goroutine up to
`wg.Wait()`, then each goroutine to its end, then the main goroutine to its return. -/
def sequentialSchedule (n : Nat) : List Tid :=
  List.replicate (n + 3) Tid.main
    ++ (List.range n).flatMap (fun i => List.replicate 4 (Tid.go i))
    ++ List.replicate 3 Tid.main

/-- The schedule that runs the callbacks in lockstep: every goroutine enters its callback,
then every callback returns, then every result is reported, then every `wg.Done()`. -/
def lockstepSchedule (n : Nat) : List Tid :=
  List.replicate (n + 3) Tid.main
    ++ (List.replicate 4 ((List.range n).map Tid.go)).flatten
    ++ List.replicate 3 Tid.main

/-- Whether the event is an entry into some callback's `OnShutdown`. -/
def Event.isOnShutdown : Event → Bool
  | .OnShutdown _ _ => true
  | _ => false

/-- Whether the event is the entry into `callbacks[i].OnShutdown`. -/
def Event.isOnShutdownOf (i : Nat) : Event → Bool
  | .OnShutdown j _ => decide (j = i)
  | _ => false

/-- Whether the event is the return of `callbacks[i].OnShutdown`. -/
def Event.isReturnOf (i : Nat) : Event → Bool
  | .OnShutdownReturn j _ => decide (j = i)
  | _ => false

/-- Whether the event is a call of `OnError` on an error handler. -/
def Event.isOnError : Event → Bool
  | .OnError _ _ => true
  | _ => false

/-- The error delivered by the event, when it is a call of `OnError`. -/
def Event.error : Event → Option (ErrorHandler × GoError)
  | .OnError h e => some (h, e)
  | _ => none

/-- The errors delivered to error handlers in a trace, in order. -/
def delivered (trace : List Event) : List (ErrorHandler × GoError) :=
  trace.filterMap Event.error

/-- The manager of `TestCallbacksGetCalled`: an `SMFinishFunc` returning nil. -/
def testManager : ShutdownManager :=
  { GetName := "test-sm", Start := none, ShutdownStart := none, ShutdownFinish := none }

/-- The callback of `TestCallbacksGetCalled`, a `ShutdownFunc` that returns nil. -/
def testCallback : ShutdownCallback :=
  ShutdownFunc (fun _ => none)

/-- Register `n` copies of a callback. -/
def addCallbacks (gs : GracefulShutdown) (cb : ShutdownCallback) : Nat → GracefulShutdown
  | 0 => gs
  | n + 1 => AddShutdownCallback (addCallbacks gs cb n) cb

end shutdown

/-! ## The cancellation-token coordinator: data model and operations -/

namespace cgracefulshutdown

/-- The interface `ShutdownCallback`: the result of `Execute()`. -/
structure ShutdownCallback where
  Execute : Option GoError

/-- `ShutdownFunc`: a function used as a `ShutdownCallback`; `Execute` calls it. -/
def ShutdownFunc (sf : Option GoError) : ShutdownCallback :=
  { Execute := sf }

/-- The interface `ShutdownManager`: the name and the result of `Start()`.
`BeginShutdown()` and `EndShutdown()` return nothing. -/
structure ShutdownManager where
  GetName : String
  Start : Option GoError

/-- The interface `ErrorHandler`; `HandleError` returns nothing. -/
structure ErrorHandler where
  label : String
deriving DecidableEq, Repr

/-- A `context.Context`, reduced to whether its `Done()` channel is closed. -/
structure Context where
  done : Bool
deriving DecidableEq, Repr

/-- The `context.CancelFunc` returned by `context.WithCancel`: calling it closes the
`Done()` channel of the derived context. -/
inductive CancelFunc where
  | cancelDerived
deriving DecidableEq, Repr

/-- `context.WithCancel(parent)`: the derived context is done as soon as the parent is. -/
def WithCancel (parent : Context) : Context × CancelFunc :=
  ({ done := parent.done }, CancelFunc.cancelDerived)

/-- The struct `GracefulShutdown`, without `shutdownMutex`, which is part of the state
of the machine below. Nil fields are `none`. -/
structure GracefulShutdown where
  name : String
  shutdownManagers : List ShutdownManager
  shutdownStarted : Bool
  shutdownCtx : Option Context
  shutdownCancel : Option CancelFunc
  callbacks : List ShutdownCallback
  errorHandler : Option ErrorHandler

/-- Calls made by the coordinator on its collaborators. `HandleError` carries the
error passed, which `ReportError` does not check for nil. -/
inductive Event where
  | Start (i : Nat)
  | Cancel
  | Execute (i : Nat)
  | HandleError (h : ErrorHandler) (err : Option GoError)
  | BeginShutdown (i : Nat)
  | EndShutdown (i : Nat)
deriving DecidableEq, Repr

/-- A run-time panic. The only one these functions can raise is the call of a method on
a nil interface value or of a nil function value. -/
inductive Fault where
  | nilDereference
deriving DecidableEq, Repr

/-- What a method leaves behind: the coordinator, the calls it made, and the panic
that ended it, if any. -/
structure Result where
  gs : GracefulShutdown
  trace : List Event
  fault : Option Fault

/-- `NewGracefulShutdown(name)`: every other field has its zero value. -/
def NewGracefulShutdown (name : String) : GracefulShutdown :=
  { name := name, shutdownManagers := [], shutdownStarted := false, shutdownCtx := none,
    shutdownCancel := none, callbacks := [], errorHandler := none }

/-- `AddShutdownManager`. -/
def AddShutdownManager (gs : GracefulShutdown) (sm : ShutdownManager) : GracefulShutdown :=
  { gs with shutdownManagers := gs.shutdownManagers ++ [sm] }

/-- `AddShutdownCallback`. -/
def AddShutdownCallback (gs : GracefulShutdown) (cb : ShutdownCallback) : GracefulShutdown :=
  { gs with callbacks := gs.callbacks ++ [cb] }

/-- `SetErrorHandler` (the argument may be nil). -/
def SetErrorHandler (gs : GracefulShutdown) (eh : Option ErrorHandler) : GracefulShutdown :=
  { gs with errorHandler := eh }

/-- `GetName`. -/
def GetName (gs : GracefulShutdown) : String :=
  gs.name

/-- What `Start` leaves behind: the coordinator, the error returned, the calls made, and
whether `go gs.handleShutdown()` was executed. -/
structure StartResult where
  gs : GracefulShutdown
  err : Option GoError
  trace : List Event
  launched : Bool

/-- The loop of `Start` over the managers still to be started. -/
def Start.loop (gs : GracefulShutdown) :
    List ShutdownManager → Nat → List Event → StartResult
  | [], _, trace => { gs := gs, err := none, trace := trace, launched := true }
  | sm :: rest, i, trace =>
    match sm.Start with
    | some err =>
      { gs := gs, err := some ("error starting shutdown manager: " ++ err),
        trace := trace ++ [Event.Start i], launched := false }
    | none => Start.loop gs rest (i + 1) (trace ++ [Event.Start i])

/-- `Start(ctx)`: assign the derived context and its cancel function, start the managers
in order, and launch `handleShutdown` when none failed. -/
def Start (gs : GracefulShutdown) (ctx : Context) : StartResult :=
  Start.loop { gs with shutdownCtx := some (WithCancel ctx).1,
                       shutdownCancel := some (WithCancel ctx).2 }
    gs.shutdownManagers 0 []

/-- `StartShutdown`, between `Lock()` and the deferred `Unlock()`: return when
`shutdownStarted` is set, else set it and call `gs.shutdownCancel()`. Calling a nil
function panics; calling the cancel function closes the `Done()` channel of the
derived context. -/
def StartShutdown (gs : GracefulShutdown) : Result :=
  if gs.shutdownStarted then { gs := gs, trace := [], fault := none }
  else
    match gs.shutdownCancel with
    | none =>
      { gs := { gs with shutdownStarted := true }, trace := [],
        fault := some Fault.nilDereference }
    | some _ =>
      { gs := { gs with shutdownStarted := true,
                        shutdownCtx := gs.shutdownCtx.map (fun c => { c with done := true }) },
        trace := [Event.Cancel], fault := none }

/-- `ReportError`: `gs.errorHandler.HandleError(err)`, with no check of either value. -/
def ReportError (gs : GracefulShutdown) (err : Option GoError) : Result :=
  match gs.errorHandler with
  | none => { gs := gs, trace := [], fault := some Fault.nilDereference }
  | some h => { gs := gs, trace := [Event.HandleError h err], fault := none }

/-- The first loop of `handleShutdown`, over the callbacks still to be executed. -/
def handleShutdown.callbacks (gs : GracefulShutdown) :
    List ShutdownCallback → Nat → List Event → List Event × Option Fault
  | [], _, trace => (trace, none)
  | cb :: rest, i, trace =>
    match cb.Execute with
    | none => handleShutdown.callbacks gs rest (i + 1) (trace ++ [Event.Execute i])
    | some err =>
      match gs.errorHandler with
      | none => (trace ++ [Event.Execute i], some Fault.nilDereference)
      | some h =>
        handleShutdown.callbacks gs rest (i + 1)
          (trace ++ [Event.Execute i,
            Event.HandleError h (some ("error executing shutdown callback: " ++ err))])

/-- The second and third loops of `handleShutdown`: one call of a hook per manager. -/
def handleShutdown.managers (hook : Nat → Event) : List ShutdownManager → Nat → List Event
  | [], _ => []
  | _ :: rest, i => hook i :: handleShutdown.managers hook rest (i + 1)

/-- `handleShutdown`, from `gs.shutdownMutex.Lock()` to the deferred `Unlock()`: the part
that runs once `<-gs.shutdownCtx.Done()` has returned. -/
def handleShutdown (gs : GracefulShutdown) : Result :=
  match handleShutdown.callbacks gs gs.callbacks 0 [] with
  | (trace, some fault) => { gs := gs, trace := trace, fault := some fault }
  | (trace, none) =>
    { gs := gs,
      trace := trace ++ handleShutdown.managers Event.BeginShutdown gs.shutdownManagers 0
        ++ handleShutdown.managers Event.EndShutdown gs.shutdownManagers 0,
      fault := none }

/-- An operation on a coordinator by its owner before shutdown is triggered. -/
inductive Op where
  | AddShutdownManager (sm : ShutdownManager)
  | AddShutdownCallback (cb : ShutdownCallback)
  | SetErrorHandler (eh : Option ErrorHandler)
  | Start (ctx : Context)

/-- Whether the operation is a call of `Start`. -/
def Op.isStart : Op → Bool
  | .Start _ => true
  | _ => false

/-- The coordinator after one operation. -/
def Op.apply (gs : GracefulShutdown) : Op → GracefulShutdown
  | .AddShutdownManager sm => cgracefulshutdown.AddShutdownManager gs sm
  | .AddShutdownCallback cb => cgracefulshutdown.AddShutdownCallback gs cb
  | .SetErrorHandler eh => cgracefulshutdown.SetErrorHandler gs eh
  | .Start ctx => (cgracefulshutdown.Start gs ctx).gs

/-- The coordinator after a sequence of operations. -/
def applyOps (gs : GracefulShutdown) (ops : List Op) : GracefulShutdown :=
  ops.foldl Op.apply gs

end cgracefulshutdown

/-! ## The cancellation-token coordinator: goroutines, mutex, invariant -/

namespace cgracefulshutdown

/-- Program counter of a goroutine that calls `StartShutdown()`. -/
inductive CallerPc where
  /-- At `gs.shutdownMutex.Lock()`. -/
  | entry
  /-- Holds the mutex; about to run the body of `StartShutdown`. -/
  | locked
  /-- The body has returned; the deferred `Unlock()` is pending. -/
  | unlocking
  /-- `StartShutdown` has returned. -/
  | returned
  /-- The body panicked. -/
  | panicked
deriving DecidableEq, Repr

/-- Program counter of the goroutine `go gs.handleShutdown()` launched by `Start`. -/
inductive HandlerPc where
  /-- Blocked at `<-gs.shutdownCtx.Done()`. -/
  | waiting
  /-- At `gs.shutdownMutex.Lock()`. -/
  | locking
  /-- Holds the mutex; about to run the three loops. -/
  | locked
  /-- The loops are done; the deferred `Unlock()` is pending. -/
  | unlocking
  /-- `handleShutdown` has returned. -/
  | finished
  /-- `handleShutdown` panicked. -/
  | panicked
deriving DecidableEq, Repr

/-- A thread the scheduler can pick: the owner of the parent context (whose only step
is to cancel it), the `handleShutdown` goroutine, or the `j`-th caller of
`StartShutdown`. -/
inductive Tid where
  | parent
  | handler
  | caller (j : Nat)
deriving DecidableEq, Repr

/-- State of a coordinator on which `Start(ctx)` has been called once and has returned
nil: the struct, whether `shutdownMutex` is locked, the one `handleShutdown` goroutine
that call has launched, the callers of `StartShutdown`, the calls made since `Start`
returned, and whether an unrecovered panic has ended the process. A coordinator on which
`Start` has succeeded more than once has more such goroutines and is not a state of this
machine. -/
structure State where
  gs : GracefulShutdown
  mutex : Bool
  handler : HandlerPc
  callers : List CallerPc
  trace : List Event
  crashed : Bool

/-- Cancellation of the parent context, which closes the `Done()` channel of the derived
one; `none` when that channel is closed already. -/
def stepParent (s : State) : Option State :=
  match s.gs.shutdownCtx with
  | none => none
  | some c =>
    if c.done then none
    else some { s with gs := { s.gs with shutdownCtx := some { c with done := true } } }

/-- One step of `handleShutdown`; `none` when it is blocked on the channel or on the
mutex, or has ended. The three loops run while the mutex is held and are one step. A
panic runs the deferred `Unlock()` and ends the process. -/
def stepHandler (s : State) : Option State :=
  match s.handler with
  | .waiting =>
    match s.gs.shutdownCtx with
    | none => some { s with handler := .panicked, crashed := true }
    | some c => if c.done then some { s with handler := .locking } else none
  | .locking => if s.mutex then none else some { s with mutex := true, handler := .locked }
  | .locked =>
    match (handleShutdown s.gs).fault with
    | none =>
      some { s with gs := (handleShutdown s.gs).gs,
                    trace := s.trace ++ (handleShutdown s.gs).trace, handler := .unlocking }
    | some _ =>
      some { s with gs := (handleShutdown s.gs).gs,
                    trace := s.trace ++ (handleShutdown s.gs).trace, mutex := false,
                    handler := .panicked, crashed := true }
  | .unlocking => some { s with mutex := false, handler := .finished }
  | .finished => none
  | .panicked => none

/-- One step of the `j`-th caller of `StartShutdown`; `none` when it does not exist, is
blocked on the mutex, or has ended. -/
def stepCaller (s : State) (j : Nat) : Option State :=
  match s.callers[j]? with
  | none => none
  | some pc =>
    match pc with
    | .entry =>
      if s.mutex then none
      else some { s with mutex := true, callers := s.callers.set j .locked }
    | .locked =>
      match (StartShutdown s.gs).fault with
      | none =>
        some { s with gs := (StartShutdown s.gs).gs,
                      trace := s.trace ++ (StartShutdown s.gs).trace,
                      callers := s.callers.set j .unlocking }
      | some _ =>
        some { s with gs := (StartShutdown s.gs).gs,
                      trace := s.trace ++ (StartShutdown s.gs).trace, mutex := false,
                      callers := s.callers.set j .panicked, crashed := true }
    | .unlocking => some { s with mutex := false, callers := s.callers.set j .returned }
    | .returned => none
    | .panicked => none

/-- One step of the thread picked by the scheduler; no thread moves once the process has
crashed. -/
def step (s : State) (t : Tid) : Option State :=
  if s.crashed then none
  else
    match t with
    | .parent => stepParent s
    | .handler => stepHandler s
    | .caller j => stepCaller s j

/-- Follow a schedule; `none` when it picks a thread that cannot move. -/
def run (s : State) : List Tid → Option State
  | [] => some s
  | t :: rest =>
    match step s t with
    | some s1 => run s1 rest
    | none => none

/-- A call of one of the three registration methods. -/
inductive Registration where
  | AddShutdownManager (sm : ShutdownManager)
  | AddShutdownCallback (cb : ShutdownCallback)
  | SetErrorHandler (eh : Option ErrorHandler)

/-- The coordinator after one registration. -/
def Registration.apply (gs : GracefulShutdown) : Registration → GracefulShutdown
  | .AddShutdownManager sm => cgracefulshutdown.AddShutdownManager gs sm
  | .AddShutdownCallback cb => cgracefulshutdown.AddShutdownCallback gs cb
  | .SetErrorHandler eh => cgracefulshutdown.SetErrorHandler gs eh

/-- The coordinator made by `NewGracefulShutdown(name)` and then registered on, in order:
neither `Start` nor `StartShutdown` has been called on it. -/
def register (name : String) (registrations : List Registration) : GracefulShutdown :=
  registrations.foldl Registration.apply (NewGracefulShutdown name)

/-- State right after the first call `Start(ctx)` on the coordinator
`register name registrations` has returned nil: the coordinator is as that call has left
it, the one `handleShutdown` goroutine it has launched has yet to run, and `k` calls of
`StartShutdown` are about to be made. -/
def init (name : String) (registrations : List Registration) (ctx : Context) (k : Nat) :
    State :=
  { gs := (Start (register name registrations) ctx).gs, mutex := false, handler := .waiting,
    callers := List.replicate k .entry, trace := [], crashed := false }

/-- On a coordinator made by `NewGracefulShutdown(name)` and the registrations: one call
of `Start(ctx)`, followed by `k` calls of `StartShutdown()` under a schedule; `none` when
`Start` fails or the schedule picks a thread that cannot move. -/
def startThenShutdown (name : String) (registrations : List Registration) (ctx : Context)
    (k : Nat) (schedule : List Tid) : Option State :=
  if (Start (register name registrations) ctx).launched then
    run (init name registrations ctx k) schedule
  else none

/-- Whether every caller has returned and `handleShutdown` has returned. -/
def State.finished (s : State) : Bool :=
  s.callers.all (fun pc => pc == CallerPc.returned) && s.handler == HandlerPc.finished

/-- The calls one iteration of the first loop of `handleShutdown` makes for the callback
`p.2` at position `p.1` when the error handler is `h`: `Execute`, followed by
`HandleError` when it failed. -/
def executeCall (h : ErrorHandler) (p : Nat × ShutdownCallback) : List Event :=
  match p.2.Execute with
  | none => [Event.Execute p.1]
  | some err =>
    [Event.Execute p.1,
     Event.HandleError h (some ("error executing shutdown callback: " ++ err))]

/-- The calls of the first loop of `handleShutdown` when the error handler is `h`: those
of every callback, in registration order. -/
def executeCalls (h : ErrorHandler) (callbacks : List ShutdownCallback) : List Event :=
  callbacks.enum.flatMap (executeCall h)

/-- The registrations of two callbacks, of which the first fails, and of one manager. -/
def noHandlerRegistrations : List Registration :=
  [Registration.AddShutdownCallback { Execute := some "disk full" },
   Registration.AddShutdownCallback { Execute := none },
   Registration.AddShutdownManager { GetName := "manager", Start := none }]

/-- A coordinator with no error handler, two callbacks of which the first fails, and one
manager. -/
def noHandler : GracefulShutdown :=
  AddShutdownManager
    (AddShutdownCallback
      (AddShutdownCallback (NewGracefulShutdown "app") { Execute := some "disk full" })
      { Execute := none })
    { GetName := "manager", Start := none }

/-- An error handler. -/
def sampleHandler : ErrorHandler :=
  { label := "handler" }

/-- The registrations `noHandlerRegistrations` followed by those of a second manager and
of an error handler. -/
def withHandlerRegistrations : List Registration :=
  noHandlerRegistrations ++
    [Registration.AddShutdownManager { GetName := "second", Start := none },
     Registration.SetErrorHandler (some sampleHandler)]

/-- The coordinator `noHandler` with an error handler set and a second manager. -/
def withHandler : GracefulShutdown :=
  SetErrorHandler (AddShutdownManager noHandler { GetName := "second", Start := none })
    (some sampleHandler)

/-- The schedule in which two callers of `StartShutdown` run one after the other and
`handleShutdown` then runs up to and including its loops. -/
def callersThenLoops : List Tid :=
  [Tid.caller 0, Tid.caller 0, Tid.caller 0, Tid.caller 1, Tid.caller 1, Tid.caller 1,
   Tid.handler, Tid.handler, Tid.handler]

/-- The schedule `callersThenLoops` followed by the `Unlock()` of `handleShutdown`. -/
def callersFirst : List Tid :=
  callersThenLoops ++ [Tid.handler]

/-- The schedule in which the first caller runs, `handleShutdown` takes the mutex, and
the second caller asks for it while the loops have yet to run. -/
def handlerHoldsMutex : List Tid :=
  [Tid.caller 0, Tid.caller 0, Tid.caller 0, Tid.handler, Tid.handler]

/-- A manager that fails to start. -/
def failingStart : ShutdownManager :=
  { GetName := "failing", Start := some "port in use" }

/-- The two coordinators differ at most in `shutdownStarted` and `shutdownCtx`. -/
structure SameRegistry (gs gs1 : GracefulShutdown) : Prop where
  name_eq : gs1.name = gs.name
  managers_eq : gs1.shutdownManagers = gs.shutdownManagers
  callbacks_eq : gs1.callbacks = gs.callbacks
  handler_eq : gs1.errorHandler = gs.errorHandler
  cancel_eq : gs1.shutdownCancel = gs.shutdownCancel

/-- Whether a caller holds the mutex. -/
def CallerPc.holding : CallerPc → Bool
  | .locked => true
  | .unlocking => true
  | _ => false

/-- Whether a caller has run the body of `StartShutdown`. -/
def CallerPc.passed : CallerPc → Bool
  | .unlocking => true
  | .returned => true
  | _ => false

/-- Whether `handleShutdown` holds the mutex. -/
def HandlerPc.holding : HandlerPc → Bool
  | .locked => true
  | .unlocking => true
  | _ => false

/-- Whether `handleShutdown` has run its loops. -/
def HandlerPc.ranLoops : HandlerPc → Bool
  | .unlocking => true
  | .finished => true
  | _ => false

/-- Number of threads that hold the mutex. -/
def holders (s : State) : Nat :=
  s.callers.countP CallerPc.holding + (if s.handler.holding then 1 else 0)

/-- The calls a state must have made, up to their order: the cancel function when
`shutdownStarted` is set, the calls of `handleShutdown` when it has run its loops. -/
def expectedTrace (gs : GracefulShutdown) (s : State) : List Event :=
  (if s.gs.shutdownStarted then [Event.Cancel] else [])
    ++ (if s.handler.ranLoops then (handleShutdown gs).trace else [])

/-- The invariant of the machine started with the coordinator `gs` when `handleShutdown` does not
panic on `gs`. -/
structure Inv (gs : GracefulShutdown) (k : Nat) (s : State) : Prop where
  registry : SameRegistry gs s.gs
  ctx_some : ∃ c, s.gs.shutdownCtx = some c ∧ (s.gs.shutdownStarted = true → c.done = true)
    ∧ (s.handler ≠ HandlerPc.waiting → c.done = true)
  not_crashed : s.crashed = false
  handler_ok : s.handler ≠ HandlerPc.panicked
  callers_ok : ∀ pc ∈ s.callers, pc ≠ CallerPc.panicked
  length_eq : s.callers.length = k
  mutex_eq : (if s.mutex then 1 else 0) = holders s
  passed_started : 0 < s.callers.countP CallerPc.passed → s.gs.shutdownStarted = true
  trace_perm : s.trace.Perm (expectedTrace gs s)

/-- Steps a caller still has to make. -/
def callerRemaining : CallerPc → Nat
  | .entry => 3
  | .locked => 2
  | .unlocking => 1
  | _ => 0

/-- Steps `handleShutdown` still has to make. -/
def handlerRemaining : HandlerPc → Nat
  | .waiting => 4
  | .locking => 3
  | .locked => 2
  | .unlocking => 1
  | _ => 0

/-- Whether the parent context can still be cancelled. -/
def parentRemaining (gs : GracefulShutdown) : Nat :=
  match gs.shutdownCtx with
  | some c => if c.done then 0 else 1
  | none => 0

/-- Steps left in an execution of the machine. -/
def remaining (s : State) : Nat :=
  (s.callers.map callerRemaining).sum + handlerRemaining s.handler + parentRemaining s.gs

/-- Whether the event is a call made by the first loop of `handleShutdown`. -/
def Event.isLoopCall : Event → Bool
  | .Execute _ => true
  | .HandleError _ _ => true
  | _ => false

end cgracefulshutdown

/-! ## The barrier coordinator: invariant, measure and sample inputs -/

namespace shutdown

/-- Calls the main goroutine has made before the loop, by program counter. -/
def mainBefore (gs : GracefulShutdown) (sm : ShutdownManager) : MainPc → List Event
  | .pre => []
  | .preReport _ => [Event.ShutdownStart]
  | _ => Event.ShutdownStart :: (ReportError gs sm.ShutdownStart).2

/-- Calls the main goroutine has made after `wg.Wait()`, by program counter. -/
def mainAfter (gs : GracefulShutdown) (sm : ShutdownManager) : MainPc → List Event
  | .postReport _ => [Event.ShutdownFinish]
  | .ret => Event.ShutdownFinish :: (ReportError gs sm.ShutdownFinish).2
  | _ => []

/-- Calls made by a complete run of the goroutine of `callbacks[i]`. -/
def callbackScript (gs : GracefulShutdown) (sm : ShutdownManager) (i : Nat)
    (cb : ShutdownCallback) : List Event :=
  [Event.OnShutdown i sm.GetName, Event.OnShutdownReturn i (cb.OnShutdown sm.GetName)]
    ++ (ReportError gs (cb.OnShutdown sm.GetName)).2

/-- Calls a goroutine has made so far, by program counter. -/
def goScript (gs : GracefulShutdown) (sm : ShutdownManager) (g : Goroutine) : List Event :=
  match g.pc with
  | .start => []
  | .called _ => [Event.OnShutdown g.index sm.GetName]
  | .returned _ =>
    [Event.OnShutdown g.index sm.GetName,
     Event.OnShutdownReturn g.index (g.shutdownCallback.OnShutdown sm.GetName)]
  | .reported => callbackScript gs sm g.index g.shutdownCallback
  | .done => callbackScript gs sm g.index g.shutdownCallback

/-- The scripts of the callbacks of a list, the head having index `i`, one after the
other. -/
def scriptsFrom (gs : GracefulShutdown) (sm : ShutdownManager) :
    List ShutdownCallback → Nat → List Event
  | [], _ => []
  | cb :: rest, i => callbackScript gs sm i cb ++ scriptsFrom gs sm rest (i + 1)

/-- Number of goroutines the main goroutine has spawned, by program counter. -/
def spawned (n : Nat) : MainPc → Nat
  | .pre => 0
  | .preReport _ => 0
  | .loop k => k
  | _ => n

/-- Whether the main goroutine is past `wg.Wait()`. -/
def pastWait : MainPc → Bool
  | .post => true
  | .postReport _ => true
  | .ret => true
  | _ => false

/-- Whether a goroutine has not yet executed `wg.Done()`. -/
def Goroutine.live (g : Goroutine) : Bool :=
  match g.pc with
  | .done => false
  | _ => true

/-- Number of goroutines that have not yet executed `wg.Done()`. -/
def pending (gos : List Goroutine) : Nat :=
  gos.countP Goroutine.live

/-- What holds of the goroutine at position `i`. -/
structure GoOk (gs : GracefulShutdown) (sm : ShutdownManager) (i : Nat) (g : Goroutine) :
    Prop where
  index_eq : g.index = i
  callback_eq : gs.callbacks[i]? = some g.shutdownCallback
  arg_eq : ∀ arg, g.pc = GoPc.called arg → arg = sm.GetName
  result_eq : ∀ r, g.pc = GoPc.returned r → r = g.shutdownCallback.OnShutdown sm.GetName

/-- The invariant of `StartShutdown gs sm` started after the calls `tr0`. -/
structure Inv (gs : GracefulShutdown) (sm : ShutdownManager) (tr0 : List Event) (s : State) :
    Prop where
  gs_eq : s.gs = gs
  sm_eq : s.sm = sm
  pre_eq : ∀ r, s.main = MainPc.preReport r → r = sm.ShutdownStart
  post_eq : ∀ r, s.main = MainPc.postReport r → r = sm.ShutdownFinish
  length_eq : s.gos.length = spawned gs.callbacks.length s.main
  loop_le : ∀ k, s.main = MainPc.loop k → k ≤ gs.callbacks.length
  ok : ∀ i g, s.gos[i]? = some g → GoOk gs sm i g
  wg_eq : s.wg = pending s.gos
  past : pastWait s.main = true → pending s.gos = 0
  trace_eq : ∃ mid, s.trace = tr0 ++ mainBefore gs sm s.main ++ mid ++ mainAfter gs sm s.main
    ∧ mid.Perm (s.gos.map (goScript gs sm)).flatten

/-- Steps the main goroutine still has to make, the goroutines it has yet to spawn
included, by program counter. -/
def mainRemaining (n : Nat) : MainPc → Nat
  | .pre => 5 * n + 6
  | .preReport _ => 5 * n + 5
  | .loop k => 5 * (n - k) + 4
  | .wait => 3
  | .post => 2
  | .postReport _ => 1
  | .ret => 0

/-- Steps a spawned goroutine still has to make. -/
def goRemaining (g : Goroutine) : Nat :=
  match g.pc with
  | .start => 4
  | .called _ => 3
  | .returned _ => 2
  | .reported => 1
  | .done => 0

/-- Steps left in an execution of `StartShutdown`. -/
def remaining (s : State) : Nat :=
  mainRemaining s.gs.callbacks.length s.main + (s.gos.map goRemaining).sum

/-- The calls of a complete execution of `StartShutdown` whose goroutines made the calls
`mid`: the pre-hook and its report, `mid`, the post-hook and its report. -/
def completeRun (gs : GracefulShutdown) (sm : ShutdownManager) (mid : List Event) :
    List Event :=
  Event.ShutdownStart :: (ReportError gs sm.ShutdownStart).2 ++ mid
    ++ Event.ShutdownFinish :: (ReportError gs sm.ShutdownFinish).2

/-- The results of the pre-hook, of every callback in registration order, and of the
post-hook. -/
def results (gs : GracefulShutdown) (sm : ShutdownManager) : List (Option GoError) :=
  sm.ShutdownStart :: gs.callbacks.map (fun cb => cb.OnShutdown sm.GetName)
    ++ [sm.ShutdownFinish]

/-- Whether the event is a call of one of the two hooks of the triggering manager. -/
def Event.isHook : Event → Bool
  | .ShutdownStart => true
  | .ShutdownFinish => true
  | _ => false

/-- A manager whose two hooks fail. -/
def failingManager : ShutdownManager :=
  { GetName := "failing-sm", Start := none, ShutdownStart := some "pre-hook failed",
    ShutdownFinish := some "post-hook failed" }

/-- An error handler. -/
def sampleHandler : ErrorHandler :=
  { label := "handler" }

/-- A coordinator with an error handler and two callbacks, the first of which fails. -/
def sampleCoordinator : GracefulShutdown :=
  SetErrorHandler
    (AddShutdownCallback
      (AddShutdownCallback New { OnShutdown := fun name => some ("callback failed: " ++ name) })
      { OnShutdown := fun _ => none })
    (some sampleHandler)

/-- Two calls of `StartShutdown(sm)` in succession on one coordinator: once the first has
returned, the second starts from the coordinator and the trace the first has left. The
result is the state at the return of the first call and the state the second schedule
leads to; `none` when the first schedule does not lead to the return of the first call. -/
def StartShutdownTwice (gs : GracefulShutdown) (sm : ShutdownManager)
    (schedule1 schedule2 : List Tid) : Option (State × State) :=
  match StartShutdown gs sm [] schedule1 with
  | none => none
  | some s1 =>
    if s1.main = MainPc.ret then
      match StartShutdown s1.gs sm s1.trace schedule2 with
      | none => none
      | some s2 => some (s1, s2)
    else none

/-- Three managers, registered in this order, the second of which fails to start. -/
def threeManagers : GracefulShutdown :=
  AddShutdownManager
    (AddShutdownManager
      (AddShutdownManager New
        { GetName := "1", Start := none, ShutdownStart := none, ShutdownFinish := none })
      { GetName := "2", Start := some "manager 2 failed", ShutdownStart := none,
        ShutdownFinish := none })
    { GetName := "3", Start := none, ShutdownStart := none, ShutdownFinish := none }

/-- Whether the event is a return from some callback's `OnShutdown`. -/
def Event.isReturn : Event → Bool
  | .OnShutdownReturn _ _ => true
  | _ => false

end shutdown

/-! ## The barrier coordinator: lemmas -/

namespace shutdown

theorem ReportError_fst (gs : GracefulShutdown) (err : Option GoError) :
    (ReportError gs err).1 = gs := by
  unfold ReportError
  split <;> rfl

theorem flatten_map_set_perm {α β : Type} (f : α → List β) (l : List α) (i : Nat) (a b : α)
    (evs : List β) (h : l[i]? = some a) (hf : f b = f a ++ evs) :
    ((l.set i b).map f).flatten.Perm ((l.map f).flatten ++ evs) := by
  induction l generalizing i with
  | nil => simp at h
  | cons x l ih =>
    cases i with
    | zero =>
      simp at h
      subst h
      simp only [List.set_cons_zero, List.map_cons, List.flatten_cons, hf, List.append_assoc]
      exact List.Perm.append_left _ List.perm_append_comm
    | succ i =>
      have h1 : l[i]? = some a := by simpa using h
      simp only [List.set_cons_succ, List.map_cons, List.flatten_cons, List.append_assoc]
      exact List.Perm.append_left _ (ih i h1)

theorem countP_set_add {α : Type} (p : α → Bool) (l : List α) (i : Nat) (a b : α)
    (h : l[i]? = some a) :
    (l.set i b).countP p + (if p a then 1 else 0) = l.countP p + (if p b then 1 else 0) := by
  induction l generalizing i with
  | nil => simp at h
  | cons x l ih =>
    cases i with
    | zero =>
      simp at h
      subst h
      simp only [List.set_cons_zero, List.countP_cons]
      omega
    | succ i =>
      have h1 : l[i]? = some a := by simpa using h
      have := ih i h1
      simp only [List.set_cons_succ, List.countP_cons]
      omega

theorem pending_pos_of_live (gos : List Goroutine) (i : Nat) (g : Goroutine)
    (h : gos[i]? = some g) (hl : g.live = true) : 0 < pending gos := by
  unfold pending
  rw [List.countP_pos_iff]
  exact ⟨g, List.getElem?_mem h, hl⟩


theorem mid_nil_of_no_goroutine (gs : GracefulShutdown) (sm : ShutdownManager)
    (gos : List Goroutine) (mid : List Event) (h0 : gos.length = 0)
    (hp : mid.Perm (gos.map (goScript gs sm)).flatten) : mid = [] := by
  have : gos = [] := List.length_eq_zero.mp h0
  subst this
  simpa using hp

theorem Inv.preserved_stepMain {gs : GracefulShutdown} {sm : ShutdownManager} {tr0 : List Event}
    {s s1 : State} (h : Inv gs sm tr0 s) (hs : stepMain s = some s1) : Inv gs sm tr0 s1 := by
  obtain ⟨hgs, hsm, hpre, hpost, hlen, hle, hok, hwg, hpast, mid, htr, hperm⟩ := h
  unfold shutdown.stepMain at hs
  split at hs
  · -- pre
    rename_i hm
    simp only [Option.some.injEq] at hs
    subst hs
    have hmid : mid = [] := mid_nil_of_no_goroutine gs sm s.gos mid (by rw [hlen, hm]; rfl) hperm
    refine ⟨hgs, hsm, ?_, ?_, ?_, ?_, hok, hwg, ?_, mid, ?_, hperm⟩
    · intro r hr; simp at hr; rw [← hr, hsm]
    · intro r hr; simp at hr
    · simpa [spawned, hm] using hlen
    · intro k hk; simp at hk
    · intro hp; simp [pastWait] at hp
    · simp [htr, hm, hmid, mainBefore, mainAfter]
  · -- preReport
    rename_i r hm
    simp only [Option.some.injEq] at hs
    subst hs
    have hr : r = sm.ShutdownStart := hpre r hm
    have hmid : mid = [] := mid_nil_of_no_goroutine gs sm s.gos mid (by rw [hlen, hm]; rfl) hperm
    refine ⟨?_, hsm, ?_, ?_, ?_, ?_, hok, hwg, ?_, mid, ?_, hperm⟩
    · simp [ReportError_fst, hgs]
    · intro r hr; simp at hr
    · intro r hr; simp at hr
    · simpa [spawned, hm] using hlen
    · intro k hk; simp at hk; omega
    · intro hp; simp [pastWait] at hp
    · simp [htr, hm, hmid, mainBefore, mainAfter, hgs, hr]
  · -- loop
    rename_i k hm
    split at hs
    · rename_i cb hcb
      simp only [Option.some.injEq] at hs
      subst hs
      have hk : s.gos.length = k := by simpa [spawned, hm] using hlen
      have hklt : k < gs.callbacks.length := by
        rw [hgs] at hcb
        exact (List.getElem?_eq_some_iff.mp hcb).1
      refine ⟨hgs, hsm, ?_, ?_, ?_, ?_, ?_, ?_, ?_, mid, ?_, ?_⟩
      · intro r hr; simp at hr
      · intro r hr; simp at hr
      · simp [spawned, hk]
      · intro k1 hk1; simp at hk1; omega
      · intro i g hg
        simp only at hg
        by_cases hi : i < s.gos.length
        · rw [List.getElem?_append_left hi] at hg
          exact hok i g hg
        · have hi2 : s.gos.length ≤ i := Nat.le_of_not_lt hi
          rw [List.getElem?_append_right hi2] at hg
          have hi3 : i - s.gos.length = 0 := by
            by_contra hne
            have : ([({ shutdownCallback := cb, index := k, pc := GoPc.start } : Goroutine)])[i - s.gos.length]? = none := by
              apply List.getElem?_eq_none
              simp; omega
            rw [this] at hg
            cases hg
          rw [hi3] at hg
          simp at hg
          subst hg
          have hik : i = k := by omega
          subst hik
          refine ⟨rfl, ?_, ?_, ?_⟩
          · rw [← hgs]; exact hcb
          · intro arg ha; simp at ha
          · intro r ha; simp at ha
      · simp [pending, List.countP_append, Goroutine.live, hwg]
      · intro hp; simp [pastWait] at hp
      · simpa [hm, mainBefore, mainAfter] using htr
      · simpa [goScript] using hperm
    · rename_i hcb
      simp only [Option.some.injEq] at hs
      subst hs
      have hk : s.gos.length = k := by simpa [spawned, hm] using hlen
      have hkn : gs.callbacks.length ≤ k := by
        rw [hgs] at hcb
        exact List.getElem?_eq_none_iff.mp hcb
      have hkn2 : k ≤ gs.callbacks.length := hle k hm
      refine ⟨hgs, hsm, ?_, ?_, ?_, ?_, hok, hwg, ?_, mid, ?_, hperm⟩
      · intro r hr; simp at hr
      · intro r hr; simp at hr
      · simp [spawned, hk]; omega
      · intro k1 hk1; simp at hk1
      · intro hp; simp [pastWait] at hp
      · simpa [hm, mainBefore, mainAfter] using htr
  · -- wait
    rename_i hm
    split at hs
    · rename_i hz
      simp only [Option.some.injEq] at hs
      subst hs
      refine ⟨hgs, hsm, ?_, ?_, ?_, ?_, hok, hwg, ?_, mid, ?_, hperm⟩
      · intro r hr; simp at hr
      · intro r hr; simp at hr
      · simpa [spawned, hm] using hlen
      · intro k1 hk1; simp at hk1
      · intro _; rw [← hwg]; exact hz
      · simpa [hm, mainBefore, mainAfter] using htr
    · cases hs
  · -- post
    rename_i hm
    simp only [Option.some.injEq] at hs
    subst hs
    refine ⟨hgs, hsm, ?_, ?_, ?_, ?_, hok, hwg, ?_, mid, ?_, hperm⟩
    · intro r hr; simp at hr
    · intro r hr; simp at hr; rw [← hr, hsm]
    · simpa [spawned, hm] using hlen
    · intro k1 hk1; simp at hk1
    · intro _; exact hpast (by simp [hm, pastWait])
    · simp [htr, hm, mainBefore, mainAfter]
  · -- postReport
    rename_i r hm
    simp only [Option.some.injEq] at hs
    subst hs
    have hr : r = sm.ShutdownFinish := hpost r hm
    refine ⟨?_, hsm, ?_, ?_, ?_, ?_, hok, hwg, ?_, mid, ?_, hperm⟩
    · simp [ReportError_fst, hgs]
    · intro r hr; simp at hr
    · intro r hr; simp at hr
    · simpa [spawned, hm] using hlen
    · intro k1 hk1; simp at hk1
    · intro _; exact hpast (by simp [hm, pastWait])
    · simp [htr, hm, mainBefore, mainAfter, hgs, hr]
  · cases hs


theorem mainAfter_of_not_pastWait (gs : GracefulShutdown) (sm : ShutdownManager) (pc : MainPc)
    (h : pastWait pc = false) : mainAfter gs sm pc = [] := by
  cases pc <;> simp_all [pastWait, mainAfter]

theorem Inv.goStep {gs : GracefulShutdown} {sm : ShutdownManager} {tr0 : List Event}
    {s : State} (h : Inv gs sm tr0 s) (i : Nat) (g g1 : Goroutine) (evs : List Event)
    (wg1 : Nat) (hg : s.gos[i]? = some g) (hlive : g.live = true)
    (hscript : goScript gs sm g1 = goScript gs sm g ++ evs) (hok1 : GoOk gs sm i g1)
    (hwg1 : wg1 + 1 = s.wg + (if g1.live then 1 else 0)) :
    Inv gs sm tr0
      { gs := gs, sm := s.sm, main := s.main, gos := s.gos.set i g1, wg := wg1,
        trace := s.trace ++ evs } := by
  obtain ⟨hgs, hsm, hpre, hpost, hlen, hle, hok, hwg, hpast, mid, htr, hperm⟩ := h
  have hpos : 0 < pending s.gos := pending_pos_of_live s.gos i g hg hlive
  have hnp : pastWait s.main = false := by
    cases hp : pastWait s.main
    · rfl
    · have := hpast hp; omega
  have hcount := countP_set_add Goroutine.live s.gos i g g1 hg
  rw [hlive] at hcount
  simp only [if_true] at hcount
  refine ⟨rfl, hsm, hpre, hpost, ?_, hle, ?_, ?_, ?_, mid ++ evs, ?_, ?_⟩
  · simpa using hlen
  · intro j g2 hj
    simp only at hj
    by_cases hij : i = j
    · subst hij
      rw [List.getElem?_set_self (List.getElem?_eq_some_iff.mp hg).1] at hj
      simp only [Option.some.injEq] at hj
      subst hj
      exact hok1
    · rw [List.getElem?_set_ne hij] at hj
      exact hok j g2 hj
  · simp only [pending] at hwg ⊢
    omega
  · intro hp
    simp only at hp
    rw [hnp] at hp
    cases hp
  · simp only
    rw [htr, mainAfter_of_not_pastWait gs sm s.main hnp]
    simp
  · simp only
    exact (List.Perm.append_right evs hperm).trans
      (flatten_map_set_perm (goScript gs sm) s.gos i g g1 evs hg hscript).symm

theorem Inv.preserved_stepGo {gs : GracefulShutdown} {sm : ShutdownManager} {tr0 : List Event}
    {s s1 : State} (i : Nat) (h : Inv gs sm tr0 s) (hs : stepGo s i = some s1) :
    Inv gs sm tr0 s1 := by
  have hsm := h.sm_eq
  obtain rfl := h.gs_eq
  unfold shutdown.stepGo at hs
  split at hs
  · cases hs
  · rename_i g hg
    have hgok := h.ok i g hg
    split at hs
    · -- start
      rename_i hpc
      simp only [Option.some.injEq] at hs
      subst hs
      have := h.goStep i g { g with pc := GoPc.called s.sm.GetName }
        [Event.OnShutdown g.index s.sm.GetName] s.wg hg (by simp [Goroutine.live, hpc])
        (by simp [goScript, hpc, hsm])
        ⟨hgok.index_eq, hgok.callback_eq, fun arg ha => by simp at ha; rw [← ha, hsm],
          fun r ha => by simp at ha⟩
        (by simp [Goroutine.live])
      exact this
    · -- called
      rename_i arg hpc
      simp only [Option.some.injEq] at hs
      subst hs
      have harg : arg = sm.GetName := hgok.arg_eq arg hpc
      have := h.goStep i g { g with pc := GoPc.returned (g.shutdownCallback.OnShutdown arg) }
        [Event.OnShutdownReturn g.index (g.shutdownCallback.OnShutdown arg)] s.wg hg
        (by simp [Goroutine.live, hpc])
        (by simp [goScript, hpc, harg])
        ⟨hgok.index_eq, hgok.callback_eq, fun arg ha => by simp at ha,
          fun r ha => by simp at ha; rw [← ha, harg]⟩
        (by simp [Goroutine.live])
      exact this
    · -- returned
      rename_i r hpc
      simp only [Option.some.injEq] at hs
      subst hs
      have hr : r = g.shutdownCallback.OnShutdown sm.GetName := hgok.result_eq r hpc
      have := h.goStep i g { g with pc := GoPc.reported }
        (ReportError s.gs r).2 s.wg hg
        (by simp [Goroutine.live, hpc])
        (by simp [goScript, hpc, callbackScript, hr])
        ⟨hgok.index_eq, hgok.callback_eq, fun arg ha => by simp at ha,
          fun r ha => by simp at ha⟩
        (by simp [Goroutine.live])
      rw [ReportError_fst]
      exact this
    · -- reported
      rename_i hpc
      simp only [Option.some.injEq] at hs
      subst hs
      have hpos : 0 < pending s.gos :=
        pending_pos_of_live s.gos i g hg (by simp [Goroutine.live, hpc])
      have hwg := h.wg_eq
      have := h.goStep i g { g with pc := GoPc.done } [] (s.wg - 1) hg
        (by simp [Goroutine.live, hpc])
        (by simp [goScript, hpc])
        ⟨hgok.index_eq, hgok.callback_eq, fun arg ha => by simp at ha,
          fun r ha => by simp at ha⟩
        (by simp [Goroutine.live]; omega)
      simpa using this
    · cases hs

theorem Inv.preserved_step {gs : GracefulShutdown} {sm : ShutdownManager} {tr0 : List Event}
    {s s1 : State} (t : Tid) (h : Inv gs sm tr0 s) (hs : step s t = some s1) :
    Inv gs sm tr0 s1 := by
  cases t with
  | main => exact h.preserved_stepMain hs
  | go i => exact h.preserved_stepGo i hs

theorem Inv.at_init (gs : GracefulShutdown) (sm : ShutdownManager) (tr0 : List Event) :
    Inv gs sm tr0 (init gs sm tr0) := by
  refine ⟨rfl, rfl, ?_, ?_, rfl, ?_, ?_, rfl, ?_, [], ?_, ?_⟩
  · intro r hr; simp [shutdown.init] at hr
  · intro r hr; simp [shutdown.init] at hr
  · intro r hr; simp [shutdown.init] at hr
  · intro i g hg; simp [shutdown.init] at hg
  · intro hp; simp [shutdown.init, pastWait] at hp
  · simp [shutdown.init, mainBefore, mainAfter]
  · simp [shutdown.init]

theorem Inv.preserved_run {gs : GracefulShutdown} {sm : ShutdownManager} {tr0 : List Event}
    (schedule : List Tid) {s s1 : State} (h : Inv gs sm tr0 s)
    (hs : run s schedule = some s1) : Inv gs sm tr0 s1 := by
  induction schedule generalizing s with
  | nil =>
    simp only [shutdown.run, Option.some.injEq] at hs
    subst hs
    exact h
  | cons t rest ih =>
    simp only [shutdown.run] at hs
    split at hs
    · rename_i s2 h2
      exact ih (h.preserved_step t h2) hs
    · cases hs

theorem Inv.of_StartShutdown {gs : GracefulShutdown} {sm : ShutdownManager}
    {tr0 : List Event} {schedule : List Tid} {s : State}
    (hs : StartShutdown gs sm tr0 schedule = some s) : Inv gs sm tr0 s :=
  (Inv.at_init gs sm tr0).preserved_run schedule hs

theorem sum_map_set_add {α : Type} (f : α → Nat) (l : List α) (i : Nat) (a b : α)
    (h : l[i]? = some a) :
    ((l.set i b).map f).sum + f a = (l.map f).sum + f b := by
  induction l generalizing i with
  | nil => simp at h
  | cons x l ih =>
    cases i with
    | zero =>
      simp at h
      subst h
      simp only [List.set_cons_zero, List.map_cons, List.sum_cons]
      omega
    | succ i =>
      have h1 : l[i]? = some a := by simpa using h
      have := ih i h1
      simp only [List.set_cons_succ, List.map_cons, List.sum_cons]
      omega

theorem remaining_stepMain {s s1 : State} (hs : stepMain s = some s1) :
    remaining s1 + 1 ≤ remaining s := by
  unfold shutdown.stepMain at hs
  split at hs
  · rename_i hm
    simp only [Option.some.injEq] at hs
    subst hs
    simp only [remaining, hm, mainRemaining]
    omega
  · rename_i r hm
    simp only [Option.some.injEq] at hs
    subst hs
    simp only [remaining, hm, mainRemaining, ReportError_fst]
    omega
  · rename_i k hm
    split at hs
    · rename_i cb hcb
      simp only [Option.some.injEq] at hs
      subst hs
      have hklt : k < s.gs.callbacks.length := (List.getElem?_eq_some_iff.mp hcb).1
      simp only [remaining, hm, mainRemaining, List.map_append, List.sum_append, List.map_cons,
        List.map_nil, List.sum_cons, List.sum_nil, goRemaining]
      omega
    · simp only [Option.some.injEq] at hs
      subst hs
      simp only [remaining, hm, mainRemaining]
      omega
  · rename_i hm
    split at hs
    · simp only [Option.some.injEq] at hs
      subst hs
      simp only [remaining, hm, mainRemaining]
      omega
    · cases hs
  · rename_i hm
    simp only [Option.some.injEq] at hs
    subst hs
    simp only [remaining, hm, mainRemaining]
    omega
  · rename_i r hm
    simp only [Option.some.injEq] at hs
    subst hs
    simp only [remaining, hm, mainRemaining, ReportError_fst]
    omega
  · cases hs

theorem remaining_stepGo {s s1 : State} (i : Nat) (hs : stepGo s i = some s1) :
    remaining s1 + 1 ≤ remaining s := by
  unfold shutdown.stepGo at hs
  split at hs
  · cases hs
  · rename_i g hg
    split at hs
    all_goals first
      | cases hs; done
      | (rename_i hpc
         simp only [Option.some.injEq] at hs
         subst hs
         have := sum_map_set_add goRemaining s.gos i g
         simp only [remaining, ReportError_fst]
         first
          | (have h1 := this { g with pc := GoPc.called s.sm.GetName } hg
             simp only [goRemaining, hpc] at h1 ⊢
             omega)
          | (have h1 := this { g with pc := GoPc.reported } hg
             simp only [goRemaining, hpc] at h1 ⊢
             omega)
          | (have h1 := this { g with pc := GoPc.done } hg
             simp only [goRemaining, hpc] at h1 ⊢
             omega)
          | (rename_i arg
             have h1 := this { g with pc := GoPc.returned (g.shutdownCallback.OnShutdown arg) } hg
             simp only [goRemaining, hpc] at h1 ⊢
             omega))

theorem remaining_step {s s1 : State} (t : Tid) (hs : step s t = some s1) :
    remaining s1 + 1 ≤ remaining s := by
  cases t with
  | main => exact remaining_stepMain hs
  | go i => exact remaining_stepGo i hs

theorem remaining_run (schedule : List Tid) {s s1 : State} (hs : run s schedule = some s1) :
    remaining s1 + schedule.length ≤ remaining s := by
  induction schedule generalizing s with
  | nil =>
    simp only [shutdown.run, Option.some.injEq] at hs
    subst hs
    simp
  | cons t rest ih =>
    simp only [shutdown.run] at hs
    split at hs
    · rename_i s2 h2
      have h3 := ih hs
      have h4 := remaining_step t h2
      simp only [List.length_cons]
      omega
    · cases hs

theorem exists_live_of_pending_pos (gos : List Goroutine) (h : 0 < pending gos) :
    ∃ (i : Nat) (g : Goroutine), gos[i]? = some g ∧ g.live = true := by
  unfold pending at h
  rw [List.countP_pos_iff] at h
  obtain ⟨g, hg, hl⟩ := h
  obtain ⟨i, hi⟩ := List.getElem?_of_mem hg
  exact ⟨i, g, hi, hl⟩

theorem stepGo_isSome_of_live (s : State) (i : Nat) (g : Goroutine) (hg : s.gos[i]? = some g)
    (hl : g.live = true) : ∃ s1, stepGo s i = some s1 := by
  unfold shutdown.stepGo
  rw [hg]
  simp only
  cases hpc : g.pc <;> simp_all [Goroutine.live]

theorem Inv.progress {gs : GracefulShutdown} {sm : ShutdownManager} {tr0 : List Event}
    {s : State} (h : Inv gs sm tr0 s) (hne : s.main ≠ MainPc.ret) :
    ∃ t s1, step s t = some s1 := by
  by_cases hw : s.main = MainPc.wait ∧ s.wg ≠ 0
  · have hpos : 0 < pending s.gos := by
      have := h.wg_eq
      omega
    obtain ⟨i, g, hg, hl⟩ := exists_live_of_pending_pos s.gos hpos
    obtain ⟨s1, h1⟩ := stepGo_isSome_of_live s i g hg hl
    exact ⟨Tid.go i, s1, h1⟩
  · refine ⟨Tid.main, ?_⟩
    simp only [shutdown.step, shutdown.stepMain]
    cases hm : s.main with
    | pre => simp
    | preReport r => simp
    | loop k =>
      simp only
      cases s.gs.callbacks[k]? <;> simp
    | wait =>
      have : s.wg = 0 := by
        by_contra hc
        exact hw ⟨hm, hc⟩
      simp [this]
    | post => simp
    | postReport r => simp
    | ret => exact absurd hm hne

theorem Inv.completes {gs : GracefulShutdown} {sm : ShutdownManager} {tr0 : List Event}
    (n : Nat) (s : State) (h : Inv gs sm tr0 s) (hn : remaining s ≤ n) :
    ∃ more s1, run s more = some s1 ∧ s1.main = MainPc.ret := by
  induction n generalizing s with
  | zero =>
    by_cases hret : s.main = MainPc.ret
    · exact ⟨[], s, rfl, hret⟩
    · obtain ⟨t, s1, h1⟩ := h.progress hret
      have := remaining_step t h1
      omega
  | succ n ih =>
    by_cases hret : s.main = MainPc.ret
    · exact ⟨[], s, rfl, hret⟩
    · obtain ⟨t, s1, h1⟩ := h.progress hret
      have hdec := remaining_step t h1
      obtain ⟨more, s2, h2, h3⟩ := ih s1 (h.preserved_step t h1) (by omega)
      refine ⟨t :: more, s2, ?_, h3⟩
      simp [shutdown.run, h1, h2]

theorem pc_done_of_not_live (g : Goroutine) (h : g.live = false) : g.pc = GoPc.done := by
  unfold Goroutine.live at h
  split at h
  · assumption
  · cases h

theorem scripts_of_done (gs : GracefulShutdown) (sm : ShutdownManager)
    (gos : List Goroutine) (cbs : List ShutdownCallback) (j : Nat)
    (hlen : gos.length = cbs.length)
    (h : ∀ (i : Nat) (g : Goroutine), gos[i]? = some g →
      g.index = i + j ∧ cbs[i]? = some g.shutdownCallback ∧ g.pc = GoPc.done) :
    (gos.map (goScript gs sm)).flatten = scriptsFrom gs sm cbs j := by
  induction gos generalizing cbs j with
  | nil =>
    cases cbs with
    | nil => simp [scriptsFrom]
    | cons cb cbs => simp at hlen
  | cons g gos ih =>
    cases cbs with
    | nil => simp at hlen
    | cons cb cbs =>
      obtain ⟨h1, h2, h3⟩ := h 0 g (by simp)
      simp only [List.getElem?_cons_zero, Option.some.injEq] at h2
      have htail := ih cbs (j + 1) (by simpa using hlen) (fun i g1 hg1 => by
        obtain ⟨k1, k2, k3⟩ := h (i + 1) g1 (by simpa using hg1)
        refine ⟨by omega, by simpa using k2, k3⟩)
      simp only [List.map_cons, List.flatten_cons, scriptsFrom, htail]
      simp [goScript, h3, h1, h2]

theorem Inv.scripts_of_pastWait {gs : GracefulShutdown} {sm : ShutdownManager}
    {tr0 : List Event} {s : State} (h : Inv gs sm tr0 s) (hp : pastWait s.main = true) :
    (s.gos.map (goScript gs sm)).flatten = scriptsFrom gs sm gs.callbacks 0 := by
  have hpend := h.past hp
  have hlen : s.gos.length = gs.callbacks.length := by
    rw [h.length_eq]
    cases hm : s.main <;> simp_all [pastWait, spawned]
  apply scripts_of_done gs sm s.gos gs.callbacks 0 hlen
  intro i g hg
  have hok := h.ok i g hg
  refine ⟨by simpa using hok.index_eq, hok.callback_eq, ?_⟩
  apply pc_done_of_not_live
  cases hl : g.live
  · rfl
  · have := pending_pos_of_live s.gos i g hg hl
    omega

/-- A complete execution: the coordinator is unchanged and the trace is the earlier calls
followed by a complete run whose middle part is a permutation of the callbacks'
scripts. -/
theorem complete_trace {gs : GracefulShutdown} {sm : ShutdownManager} {tr0 : List Event}
    {schedule : List Tid} {s : State} (hs : StartShutdown gs sm tr0 schedule = some s)
    (hret : s.main = MainPc.ret) :
    s.gs = gs ∧ ∃ mid, s.trace = tr0 ++ completeRun gs sm mid
      ∧ mid.Perm (scriptsFrom gs sm gs.callbacks 0) := by
  have h := Inv.of_StartShutdown hs
  obtain ⟨mid, htr, hperm⟩ := h.trace_eq
  have hp : pastWait s.main = true := by simp [hret, pastWait]
  rw [h.scripts_of_pastWait hp] at hperm
  refine ⟨h.gs_eq, mid, ?_, hperm⟩
  rw [htr, hret]
  simp [completeRun, mainBefore, mainAfter]

theorem isOnError_of_mem_ReportError (gs : GracefulShutdown) (r : Option GoError) (e : Event)
    (he : e ∈ (ReportError gs r).2) : e.isOnError = true := by
  unfold ReportError at he
  split at he
  · simp at he
    subst he
    rfl
  · simp at he

theorem countP_ReportError_eq_zero (gs : GracefulShutdown) (r : Option GoError)
    (p : Event → Bool) (hp : ∀ e, e.isOnError = true → p e = false) :
    (ReportError gs r).2.countP p = 0 := by
  rw [List.countP_eq_zero]
  intro e he
  simp [hp e (isOnError_of_mem_ReportError gs r e he)]

theorem countP_scriptsFrom_isOnShutdown (gs : GracefulShutdown) (sm : ShutdownManager)
    (cbs : List ShutdownCallback) (j : Nat) :
    (scriptsFrom gs sm cbs j).countP Event.isOnShutdown = cbs.length := by
  induction cbs generalizing j with
  | nil => simp [scriptsFrom]
  | cons cb cbs ih =>
    have h0 := countP_ReportError_eq_zero gs (cb.OnShutdown sm.GetName) Event.isOnShutdown
      (fun e he => by cases e <;> simp_all [Event.isOnError, Event.isOnShutdown])
    simp [scriptsFrom, callbackScript, List.countP_append, List.countP_cons, ih, h0,
      Event.isOnShutdown]

theorem countP_scriptsFrom_isOnShutdownOf (gs : GracefulShutdown) (sm : ShutdownManager)
    (cbs : List ShutdownCallback) (j i : Nat) :
    (scriptsFrom gs sm cbs j).countP (Event.isOnShutdownOf i)
      = if j ≤ i ∧ i < j + cbs.length then 1 else 0 := by
  induction cbs generalizing j with
  | nil =>
    have : ¬ (j ≤ i ∧ i < j) := by omega
    simp [scriptsFrom, this]
  | cons cb cbs ih =>
    have h0 := countP_ReportError_eq_zero gs (cb.OnShutdown sm.GetName) (Event.isOnShutdownOf i)
      (fun e he => by cases e <;> simp_all [Event.isOnError, Event.isOnShutdownOf])
    simp only [scriptsFrom, callbackScript, List.countP_append, List.countP_cons, ih, h0,
      Event.isOnShutdownOf, List.countP_nil, List.length_cons]
    simp only [decide_eq_true_eq, Bool.false_eq_true, if_false, Nat.zero_add, Nat.add_zero]
    split_ifs <;> omega

theorem countP_scriptsFrom_isReturnOf (gs : GracefulShutdown) (sm : ShutdownManager)
    (cbs : List ShutdownCallback) (j i : Nat) :
    (scriptsFrom gs sm cbs j).countP (Event.isReturnOf i)
      = if j ≤ i ∧ i < j + cbs.length then 1 else 0 := by
  induction cbs generalizing j with
  | nil =>
    have : ¬ (j ≤ i ∧ i < j) := by omega
    simp [scriptsFrom, this]
  | cons cb cbs ih =>
    have h0 := countP_ReportError_eq_zero gs (cb.OnShutdown sm.GetName) (Event.isReturnOf i)
      (fun e he => by cases e <;> simp_all [Event.isOnError, Event.isReturnOf])
    simp only [scriptsFrom, callbackScript, List.countP_append, List.countP_cons, ih, h0,
      Event.isReturnOf, List.countP_nil, List.length_cons]
    simp only [decide_eq_true_eq, Bool.false_eq_true, if_false, Nat.zero_add, Nat.add_zero]
    split_ifs <;> omega

theorem mem_scriptsFrom (gs : GracefulShutdown) (sm : ShutdownManager)
    (cbs : List ShutdownCallback) (j : Nat) (e : Event) (he : e ∈ scriptsFrom gs sm cbs j) :
    (∃ (i : Nat) (cb : ShutdownCallback), cbs[i]? = some cb ∧
      (e = Event.OnShutdown (i + j) sm.GetName
        ∨ e = Event.OnShutdownReturn (i + j) (cb.OnShutdown sm.GetName)))
    ∨ e.isOnError = true := by
  induction cbs generalizing j with
  | nil => simp [scriptsFrom] at he
  | cons cb cbs ih =>
    simp only [scriptsFrom, callbackScript, List.mem_append, List.mem_cons, List.mem_singleton,
      List.not_mem_nil, or_false] at he
    rcases he with ((h | h) | h) | h
    · exact Or.inl ⟨0, cb, by simp, Or.inl (by simpa using h)⟩
    · exact Or.inl ⟨0, cb, by simp, Or.inr (by simpa using h)⟩
    · exact Or.inr (isOnError_of_mem_ReportError gs _ e h)
    · rcases ih (j + 1) h with ⟨i, cb1, h1, h2⟩ | h2
      · refine Or.inl ⟨i + 1, cb1, by simpa using h1, ?_⟩
        rw [show i + 1 + j = i + (j + 1) by omega]
        exact h2
      · exact Or.inr h2

theorem return_mem_scriptsFrom (gs : GracefulShutdown) (sm : ShutdownManager)
    (cbs : List ShutdownCallback) (j i : Nat) (cb : ShutdownCallback)
    (h : cbs[i]? = some cb) :
    Event.OnShutdownReturn (i + j) (cb.OnShutdown sm.GetName) ∈ scriptsFrom gs sm cbs j := by
  induction cbs generalizing j i with
  | nil => simp at h
  | cons cb0 cbs ih =>
    cases i with
    | zero =>
      simp at h
      subst h
      simp [scriptsFrom, callbackScript]
    | succ i =>
      have h1 : cbs[i]? = some cb := by simpa using h
      have := ih (j + 1) i h1
      rw [show i + 1 + j = i + (j + 1) by omega]
      simp only [scriptsFrom, List.mem_append]
      exact Or.inr this

theorem delivered_ReportError (gs : GracefulShutdown) (h : ErrorHandler)
    (hset : gs.errorHandler = some h) (r : Option GoError) :
    delivered (ReportError gs r).2 = ([r].filterMap id).map (fun e => (h, e)) := by
  unfold ReportError
  rw [hset]
  cases r <;> simp [delivered, Event.error]

theorem delivered_ReportError_none (gs : GracefulShutdown)
    (hset : gs.errorHandler = none) (r : Option GoError) :
    delivered (ReportError gs r).2 = [] := by
  unfold ReportError
  rw [hset]
  cases r <;> simp [delivered]

theorem delivered_append (a b : List Event) : delivered (a ++ b) = delivered a ++ delivered b := by
  simp [delivered, List.filterMap_append]

theorem delivered_scriptsFrom (gs : GracefulShutdown) (sm : ShutdownManager) (h : ErrorHandler)
    (hset : gs.errorHandler = some h) (cbs : List ShutdownCallback) (j : Nat) :
    delivered (scriptsFrom gs sm cbs j)
      = ((cbs.map (fun cb => cb.OnShutdown sm.GetName)).filterMap id).map (fun e => (h, e)) := by
  induction cbs generalizing j with
  | nil => simp [scriptsFrom, delivered]
  | cons cb cbs ih =>
    simp only [scriptsFrom, callbackScript, delivered_append, ih,
      delivered_ReportError gs h hset, List.map_cons]
    rcases hr : cb.OnShutdown sm.GetName with _ | e <;> simp [delivered, Event.error]

theorem delivered_scriptsFrom_none (gs : GracefulShutdown) (sm : ShutdownManager)
    (hset : gs.errorHandler = none) (cbs : List ShutdownCallback) (j : Nat) :
    delivered (scriptsFrom gs sm cbs j) = [] := by
  induction cbs generalizing j with
  | nil => simp [scriptsFrom, delivered]
  | cons cb cbs ih =>
    simp only [scriptsFrom, callbackScript, delivered_append, ih,
      delivered_ReportError_none gs hset]
    simp [delivered, Event.error]

theorem not_isHook_of_isOnError (e : Event) (h : e.isOnError = true) : e.isHook = false := by
  cases e <;> simp_all [Event.isOnError, Event.isHook]

theorem not_isHook_of_mem_callbackScript (gs : GracefulShutdown) (sm : ShutdownManager)
    (i : Nat) (cb : ShutdownCallback) (e : Event) (he : e ∈ callbackScript gs sm i cb) :
    e.isHook = false := by
  simp only [callbackScript, List.mem_append, List.mem_cons, List.mem_singleton,
    List.not_mem_nil, or_false] at he
  rcases he with (h | h) | h
  · subst h; rfl
  · subst h; rfl
  · exact not_isHook_of_isOnError e (isOnError_of_mem_ReportError gs _ e h)

theorem not_isHook_of_mem_goScript (gs : GracefulShutdown) (sm : ShutdownManager)
    (g : Goroutine) (e : Event) (he : e ∈ goScript gs sm g) : e.isHook = false := by
  unfold goScript at he
  split at he
  · simp at he
  · simp at he; subst he; rfl
  · simp at he
    rcases he with h | h <;> (subst h; rfl)
  · exact not_isHook_of_mem_callbackScript gs sm _ _ e he
  · exact not_isHook_of_mem_callbackScript gs sm _ _ e he

theorem not_isHook_of_mem_scripts (gs : GracefulShutdown) (sm : ShutdownManager)
    (gos : List Goroutine) (e : Event) (he : e ∈ (gos.map (goScript gs sm)).flatten) :
    e.isHook = false := by
  simp only [List.mem_flatten, List.mem_map] at he
  obtain ⟨l, ⟨g, _, hg⟩, hl⟩ := he
  subst hg
  exact not_isHook_of_mem_goScript gs sm g e hl

theorem mainBefore_of_spawned_pos (gs : GracefulShutdown) (sm : ShutdownManager) (pc : MainPc)
    (n : Nat) (h : 0 < spawned n pc) :
    mainBefore gs sm pc = Event.ShutdownStart :: (ReportError gs sm.ShutdownStart).2 := by
  cases pc <;> simp_all [spawned, mainBefore]

theorem not_isOnShutdown_of_mem_mainBefore (gs : GracefulShutdown) (sm : ShutdownManager)
    (pc : MainPc) (e : Event) (he : e ∈ mainBefore gs sm pc) :
    e.isOnShutdown = false ∧ ∀ i, e.isReturnOf i = false := by
  have key : e = Event.ShutdownStart ∨ e.isOnError = true := by
    unfold mainBefore at he
    split at he
    · simp at he
    · simp at he; exact Or.inl he
    · simp only [List.mem_cons] at he
      rcases he with h | h
      · exact Or.inl h
      · exact Or.inr (isOnError_of_mem_ReportError gs _ e h)
  rcases key with h | h
  · subst h; exact ⟨rfl, fun _ => rfl⟩
  · cases e <;> simp_all [Event.isOnError, Event.isOnShutdown, Event.isReturnOf]

theorem mem_mainAfter (gs : GracefulShutdown) (sm : ShutdownManager)
    (pc : MainPc) (e : Event) (he : e ∈ mainAfter gs sm pc) :
    e = Event.ShutdownFinish ∨ e.isOnError = true := by
  unfold mainAfter at he
  split at he
  · simp at he; exact Or.inl he
  · simp only [List.mem_cons] at he
    rcases he with h | h
    · exact Or.inl h
    · exact Or.inr (isOnError_of_mem_ReportError gs _ e h)
  · simp at he

theorem isPrefix_of_append_eq {α : Type} (l1 l2 a b : List α) (e : α)
    (h : l1 ++ l2 = a ++ e :: b) (he : e ∉ l1) : l1 <+: a := by
  rcases List.append_eq_append_iff.mp h with ⟨a1, h1, _⟩ | ⟨c1, h1, h2⟩
  · exact ⟨a1, h1.symm⟩
  · cases c1 with
    | nil =>
      simp only [List.append_nil] at h1
      exact ⟨[], by simp [h1]⟩
    | cons x c1 =>
      simp only [List.cons_append, List.cons.injEq] at h2
      exfalso
      apply he
      rw [h1, h2.1]
      simp

theorem split_unique {α : Type} (l1 l2 a b : List α) (e : α)
    (h : l1 ++ e :: l2 = a ++ e :: b) (h1 : e ∉ l1) (h2 : e ∉ l2) : a = l1 ∧ b = l2 := by
  rcases List.append_eq_append_iff.mp h with ⟨a1, ha, hb⟩ | ⟨c1, ha, hb⟩
  · cases a1 with
    | nil =>
      simp only [List.append_nil, List.nil_append, List.cons.injEq, true_and] at ha hb
      exact ⟨ha, hb.symm⟩
    | cons x a1 =>
      simp only [List.cons_append, List.cons.injEq] at hb
      exfalso
      apply h2
      rw [hb.2]
      simp
  · cases c1 with
    | nil =>
      simp only [List.append_nil, List.nil_append, List.cons.injEq, true_and] at ha hb
      exact ⟨ha.symm, hb⟩
    | cons x c1 =>
      simp only [List.cons_append, List.cons.injEq] at hb
      exfalso
      apply h1
      rw [ha, hb.1]
      simp

theorem countP_completeRun (gs : GracefulShutdown) (sm : ShutdownManager) (mid : List Event)
    (p : Event → Bool) (hp : ∀ e, e.isOnError = true → p e = false) :
    (completeRun gs sm mid).countP p
      = (if p Event.ShutdownStart then 1 else 0) + mid.countP p
        + (if p Event.ShutdownFinish then 1 else 0) := by
  simp only [completeRun, List.countP_append, List.countP_cons,
    countP_ReportError_eq_zero gs _ p hp]
  omega

theorem callbacks_foldl_AddShutdownCallback (gs : GracefulShutdown)
    (cbs : List ShutdownCallback) :
    (cbs.foldl AddShutdownCallback gs).callbacks = gs.callbacks ++ cbs := by
  induction cbs generalizing gs with
  | nil => simp
  | cons cb cbs ih => simp [ih, AddShutdownCallback]

theorem mem_completeRun_OnShutdown (gs : GracefulShutdown) (sm : ShutdownManager)
    (mid : List Event) (hperm : mid.Perm (scriptsFrom gs sm gs.callbacks 0))
    (i : Nat) (arg : String) (h : Event.OnShutdown i arg ∈ completeRun gs sm mid) :
    arg = sm.GetName ∧ i < gs.callbacks.length := by
  simp only [completeRun, List.mem_append, List.mem_cons] at h
  have hre : ∀ r, Event.OnShutdown i arg ∉ (ReportError gs r).2 := fun r hm => by
    have := isOnError_of_mem_ReportError gs r _ hm
    simp [Event.isOnError] at this
  rcases h with ((h | h) | h) | (h | h)
  · cases h
  · exact absurd h (hre _)
  · rcases mem_scriptsFrom gs sm gs.callbacks 0 _ (hperm.mem_iff.mp h) with
      ⟨k, cb, hk, h1 | h1⟩ | h1
    · simp only [Nat.add_zero, Event.OnShutdown.injEq] at h1
      exact ⟨h1.2, by rw [h1.1]; exact (List.getElem?_eq_some_iff.mp hk).1⟩
    · cases h1
    · simp [Event.isOnError] at h1
  · cases h
  · exact absurd h (hre _)

theorem countP_scriptsFrom_eq_zero (gs : GracefulShutdown) (sm : ShutdownManager)
    (cbs : List ShutdownCallback) (j : Nat) (p : Event → Bool)
    (hp : ∀ e, e.isHook = false → p e = false) :
    (scriptsFrom gs sm cbs j).countP p = 0 := by
  rw [List.countP_eq_zero]
  intro e he
  have hh : e.isHook = false := by
    rcases mem_scriptsFrom gs sm cbs j e he with ⟨k, cb, _, h1 | h1⟩ | h1
    · subst h1; rfl
    · subst h1; rfl
    · exact not_isHook_of_isOnError e h1
  simp [hp e hh]

theorem exists_of_map_main (o : Option State) (pc : MainPc)
    (h : o.map (fun s => s.main) = some pc) : ∃ s, o = some s ∧ s.main = pc := by
  cases o with
  | none => simp at h
  | some s => exact ⟨s, rfl, by simpa using h⟩

/-- General form of the counts at the return of `StartShutdown`, for any coordinator
and any earlier calls `tr0`. -/
theorem counts_at_return {gs : GracefulShutdown} {sm : ShutdownManager} {tr0 : List Event}
    {schedule : List Tid} {s : State} (hs : StartShutdown gs sm tr0 schedule = some s)
    (hret : s.main = MainPc.ret) :
    s.gs = gs ∧
    s.trace.count Event.ShutdownStart = tr0.count Event.ShutdownStart + 1 ∧
    s.trace.count Event.ShutdownFinish = tr0.count Event.ShutdownFinish + 1 ∧
    s.trace.countP Event.isOnShutdown = tr0.countP Event.isOnShutdown + gs.callbacks.length ∧
    (∀ i, i < gs.callbacks.length →
      s.trace.countP (Event.isOnShutdownOf i) = tr0.countP (Event.isOnShutdownOf i) + 1 ∧
      s.trace.countP (Event.isReturnOf i) = tr0.countP (Event.isReturnOf i) + 1) := by
  obtain ⟨hgs, mid, htr, hperm⟩ := complete_trace hs hret
  refine ⟨hgs, ?_, ?_, ?_, ?_⟩
  · have h0 := countP_scriptsFrom_eq_zero gs sm gs.callbacks 0 (fun e => e == Event.ShutdownStart)
      (fun e he => by cases e <;> simp_all [Event.isHook])
    rw [htr, List.count_append]
    unfold List.count
    rw [countP_completeRun gs sm mid _ (fun e he => by cases e <;> simp_all [Event.isOnError]),
      hperm.countP_eq, h0]
    simp
  · have h0 := countP_scriptsFrom_eq_zero gs sm gs.callbacks 0 (fun e => e == Event.ShutdownFinish)
      (fun e he => by cases e <;> simp_all [Event.isHook])
    rw [htr, List.count_append]
    unfold List.count
    rw [countP_completeRun gs sm mid _ (fun e he => by cases e <;> simp_all [Event.isOnError]),
      hperm.countP_eq, h0]
    simp
  · rw [htr, List.countP_append,
      countP_completeRun gs sm mid _
        (fun e he => by cases e <;> simp_all [Event.isOnError, Event.isOnShutdown]),
      hperm.countP_eq, countP_scriptsFrom_isOnShutdown]
    simp [Event.isOnShutdown]
  · intro i hi
    constructor
    · rw [htr, List.countP_append,
        countP_completeRun gs sm mid _
          (fun e he => by cases e <;> simp_all [Event.isOnError, Event.isOnShutdownOf]),
        hperm.countP_eq, countP_scriptsFrom_isOnShutdownOf]
      simp [Event.isOnShutdownOf, hi]
    · rw [htr, List.countP_append,
        countP_completeRun gs sm mid _
          (fun e he => by cases e <;> simp_all [Event.isOnError, Event.isReturnOf]),
        hperm.countP_eq, countP_scriptsFrom_isReturnOf]
      simp [Event.isReturnOf, hi]

theorem exists_complete (gs : GracefulShutdown) (sm : ShutdownManager) (tr0 : List Event)
    (s : State) (h : Inv gs sm tr0 s) :
    ∃ more s1, run s more = some s1 ∧ s1.main = MainPc.ret :=
  h.completes (remaining s) s (Nat.le_refl _)

theorem remaining_init (gs : GracefulShutdown) (sm : ShutdownManager) (tr0 : List Event) :
    remaining (init gs sm tr0) = 5 * gs.callbacks.length + 6 := by
  simp [remaining, init, mainRemaining]

theorem delivered_cons_hook (e : Event) (l : List Event) (h : e.isHook = true) :
    delivered (e :: l) = delivered l := by
  cases e <;> simp_all [Event.isHook, delivered, Event.error]

theorem delivered_completeRun (gs : GracefulShutdown) (sm : ShutdownManager)
    (h : ErrorHandler) (hset : gs.errorHandler = some h) (mid : List Event)
    (hperm : mid.Perm (scriptsFrom gs sm gs.callbacks 0)) :
    (delivered (completeRun gs sm mid)).Perm
      (((results gs sm).filterMap id).map (fun e => (h, e))) := by
  have hmid : (delivered mid).Perm (delivered (scriptsFrom gs sm gs.callbacks 0)) :=
    hperm.filterMap _
  rw [delivered_scriptsFrom gs sm h hset] at hmid
  simp only [completeRun, List.cons_append, delivered_cons_hook _ _ (rfl : Event.isHook .ShutdownStart = true),
    delivered_append, delivered_cons_hook _ _ (rfl : Event.isHook .ShutdownFinish = true),
    delivered_ReportError gs h hset, results, List.filterMap_append, List.map_append,
    List.filterMap_cons, List.singleton_append]
  cases sm.ShutdownStart <;> cases sm.ShutdownFinish <;>
    simpa [List.perm_append_right_iff] using hmid

theorem count_hooks_le {gs : GracefulShutdown} {sm : ShutdownManager} {s : State}
    (h : Inv gs sm [] s) :
    s.trace.count Event.ShutdownStart ≤ 1 ∧ s.trace.count Event.ShutdownFinish ≤ 1 := by
  obtain ⟨mid, htr, hperm⟩ := h.trace_eq
  have hmid : ∀ e ∈ mid, e.isHook = false := fun e he =>
    not_isHook_of_mem_scripts gs sm s.gos e (hperm.mem_iff.mp he)
  have h1 : mid.count Event.ShutdownStart = 0 :=
    List.count_eq_zero.mpr (fun hm => by simpa [Event.isHook] using hmid _ hm)
  have h2 : mid.count Event.ShutdownFinish = 0 :=
    List.count_eq_zero.mpr (fun hm => by simpa [Event.isHook] using hmid _ hm)
  have hre1 : ∀ r, (ReportError gs r).2.count Event.ShutdownStart = 0 := fun r =>
    List.count_eq_zero.mpr (fun hm => by
      simpa [Event.isOnError] using isOnError_of_mem_ReportError gs r _ hm)
  have hre2 : ∀ r, (ReportError gs r).2.count Event.ShutdownFinish = 0 := fun r =>
    List.count_eq_zero.mpr (fun hm => by
      simpa [Event.isOnError] using isOnError_of_mem_ReportError gs r _ hm)
  rw [htr]
  simp only [List.nil_append, List.count_append, h1, h2]
  cases s.main <;> simp [mainBefore, mainAfter, hre1, hre2, List.count_cons]

theorem entry_mem_scriptsFrom (gs : GracefulShutdown) (sm : ShutdownManager)
    (cbs : List ShutdownCallback) (j i : Nat) (cb : ShutdownCallback)
    (h : cbs[i]? = some cb) :
    Event.OnShutdown (i + j) sm.GetName ∈ scriptsFrom gs sm cbs j := by
  induction cbs generalizing j i with
  | nil => simp at h
  | cons cb0 cbs ih =>
    cases i with
    | zero => simp [scriptsFrom, callbackScript]
    | succ i =>
      have h1 : cbs[i]? = some cb := by simpa using h
      have := ih (j + 1) i h1
      rw [show i + 1 + j = i + (j + 1) by omega]
      simp only [scriptsFrom, List.mem_append]
      exact Or.inr this

theorem managers_foldl_AddShutdownManager (gs : GracefulShutdown)
    (ms : List ShutdownManager) :
    (ms.foldl AddShutdownManager gs).managers = gs.managers ++ ms := by
  induction ms generalizing gs with
  | nil => simp
  | cons m ms ih => simp [ih, AddShutdownManager]

theorem exists_of_StartShutdownTwice (gs : GracefulShutdown) (sm : ShutdownManager)
    (schedule1 schedule2 : List Tid) (pc1 pc2 : MainPc)
    (h : (StartShutdownTwice gs sm schedule1 schedule2).map (fun p => (p.1.main, p.2.main))
      = some (pc1, pc2)) :
    ∃ s1 s2, StartShutdownTwice gs sm schedule1 schedule2 = some (s1, s2)
      ∧ s1.main = pc1 ∧ s2.main = pc2 := by
  cases hp : StartShutdownTwice gs sm schedule1 schedule2 with
  | none => simp [hp] at h
  | some p =>
    obtain ⟨s1, s2⟩ := p
    simp only [hp, Option.map_some', Option.some.injEq, Prod.mk.injEq] at h
    exact ⟨s1, s2, rfl, h.1, h.2⟩

theorem Start.loop_all_ok (gs : GracefulShutdown) (ms : List ShutdownManager) (i : Nat)
    (log : List StartCall) (h : ∀ m ∈ ms, m.Start = none) :
    Start.loop gs ms i log
      = (none, log ++ (List.range' i ms.length).map (fun j => ⟨j, gs⟩)) := by
  induction ms generalizing i log with
  | nil => simp [Start.loop]
  | cons m rest ih =>
    have hm : m.Start = none := h m (List.mem_cons_self _ _)
    have hr : ∀ m1 ∈ rest, m1.Start = none := fun m1 h1 => h m1 (List.mem_cons_of_mem _ h1)
    simp [Start.loop, hm, ih (i + 1) _ hr, List.range'_succ]

theorem Start.loop_first_failure (gs : GracefulShutdown) (ms : List ShutdownManager) (i : Nat)
    (log : List StartCall) (k : Nat) (m : ShutdownManager) (err : GoError)
    (hk : ms[k]? = some m) (herr : m.Start = some err)
    (hbefore : ∀ j m1, j < k → ms[j]? = some m1 → m1.Start = none) :
    Start.loop gs ms i log
      = (some err, log ++ (List.range' i (k + 1)).map (fun j => ⟨j, gs⟩)) := by
  induction ms generalizing i log k with
  | nil => simp at hk
  | cons m0 rest ih =>
    cases k with
    | zero =>
      simp at hk
      subst hk
      simp [Start.loop, herr]
    | succ k =>
      have h0 : m0.Start = none := hbefore 0 m0 (Nat.succ_pos _) (by simp)
      have hk1 : rest[k]? = some m := by simpa using hk
      have hb : ∀ j m1, j < k → rest[j]? = some m1 → m1.Start = none :=
        fun j m1 hj hm1 => hbefore (j + 1) m1 (Nat.succ_lt_succ hj) (by simpa using hm1)
      simp [Start.loop, h0, ih (i + 1) _ k hk1 hb, List.range'_succ]

theorem exists_first_failure (ms : List ShutdownManager)
    (h : ¬ ∀ m ∈ ms, m.Start = none) :
    ∃ (k : Nat) (m : ShutdownManager) (err : GoError), ms[k]? = some m ∧ m.Start = some err ∧
      ∀ (j : Nat) (m1 : ShutdownManager), j < k → ms[j]? = some m1 → m1.Start = none := by
  induction ms with
  | nil => simp at h
  | cons m0 ms ih =>
    cases h0 : m0.Start with
    | some err =>
      exact ⟨0, m0, err, by simp, h0, fun j m1 hj _ => absurd hj (Nat.not_lt_zero j)⟩
    | none =>
      have hrest : ¬ ∀ m ∈ ms, m.Start = none := fun hall =>
        h (fun m hm => by
          rcases List.mem_cons.mp hm with h1 | h1
          · rw [h1]; exact h0
          · exact hall m h1)
      obtain ⟨k, m, err, hk, herr, hb⟩ := ih hrest
      refine ⟨k + 1, m, err, by simpa using hk, herr, fun j m1 hj hm1 => ?_⟩
      cases j with
      | zero =>
        simp at hm1
        rw [← hm1]; exact h0
      | succ j => exact hb j m1 (by omega) (by simpa using hm1)

theorem countP_scriptsFrom_isReturn (gs : GracefulShutdown) (sm : ShutdownManager)
    (cbs : List ShutdownCallback) (j : Nat) :
    (scriptsFrom gs sm cbs j).countP Event.isReturn = cbs.length := by
  induction cbs generalizing j with
  | nil => simp [scriptsFrom]
  | cons cb cbs ih =>
    have h0 := countP_ReportError_eq_zero gs (cb.OnShutdown sm.GetName) Event.isReturn
      (fun e he => by cases e <;> simp_all [Event.isOnError, Event.isReturn])
    simp [scriptsFrom, callbackScript, List.countP_append, List.countP_cons, ih, h0,
      Event.isReturn]

theorem count_le_countP_of_imp (l : List Event) (e : Event) (p : Event → Bool)
    (hp : p e = true) : l.count e ≤ l.countP p := by
  unfold List.count
  apply List.countP_mono_left
  intro x _ hx
  have : x = e := by simpa using hx
  rw [this]
  exact hp

theorem count_eq_one_of_mem (l : List Event) (e : Event) (p : Event → Bool)
    (hp : p e = true) (hone : l.countP p = 1) (hmem : e ∈ l) : l.count e = 1 := by
  have h1 := count_le_countP_of_imp l e p hp
  have h2 : 0 < l.count e := List.count_pos_iff.mpr hmem
  omega

theorem count_completeRun (gs : GracefulShutdown) (sm : ShutdownManager) (mid : List Event)
    (e : Event) (hh : e.isHook = false) (he : e.isOnError = false) :
    (completeRun gs sm mid).count e = mid.count e := by
  unfold List.count
  rw [countP_completeRun gs sm mid (fun x => x == e) (fun x hx => by
    cases x <;> cases e <;> simp_all [Event.isOnError])]
  cases e <;> simp_all [Event.isHook]

theorem mem_completeRun_return (gs : GracefulShutdown) (sm : ShutdownManager)
    (mid : List Event) (hperm : mid.Perm (scriptsFrom gs sm gs.callbacks 0))
    (i : Nat) (r : Option GoError) (h : Event.OnShutdownReturn i r ∈ completeRun gs sm mid) :
    ∃ cb, gs.callbacks[i]? = some cb ∧ r = cb.OnShutdown sm.GetName := by
  simp only [completeRun, List.mem_append, List.mem_cons] at h
  have hre : ∀ x, Event.OnShutdownReturn i r ∉ (ReportError gs x).2 := fun x hm => by
    have := isOnError_of_mem_ReportError gs x _ hm
    simp [Event.isOnError] at this
  rcases h with ((h | h) | h) | (h | h)
  · cases h
  · exact absurd h (hre _)
  · rcases mem_scriptsFrom gs sm gs.callbacks 0 _ (hperm.mem_iff.mp h) with
      ⟨k, cb, hk, h1 | h1⟩ | h1
    · cases h1
    · simp only [Nat.add_zero, Event.OnShutdownReturn.injEq] at h1
      exact ⟨cb, by rw [h1.1]; exact hk, h1.2⟩
    · simp [Event.isOnError] at h1
  · cases h
  · exact absurd h (hre _)

theorem Inv.goroutines_at_return {gs : GracefulShutdown} {sm : ShutdownManager}
    {tr0 : List Event} {s : State} (h : Inv gs sm tr0 s) (hp : pastWait s.main = true) :
    s.gos.map (fun g => g.shutdownCallback) = gs.callbacks ∧
    (∀ g ∈ s.gos, g.pc = GoPc.done) := by
  have hpend := h.past hp
  have hlen : s.gos.length = gs.callbacks.length := by
    rw [h.length_eq]
    cases hm : s.main <;> simp_all [pastWait, spawned]
  constructor
  · apply List.ext_getElem?
    intro i
    rw [List.getElem?_map]
    cases hg : s.gos[i]? with
    | none =>
      have : gs.callbacks.length ≤ i := by
        rw [← hlen]; exact List.getElem?_eq_none_iff.mp hg
      simp [List.getElem?_eq_none this]
    | some g =>
      simp only [Option.map_some']
      exact (h.ok i g hg).callback_eq.symm
  · intro g hg
    obtain ⟨i, hi⟩ := List.getElem?_of_mem hg
    apply pc_done_of_not_live
    cases hl : g.live
    · rfl
    · have := pending_pos_of_live s.gos i g hi hl
      omega

/-- General form of what the trace holds of every registered callback at the return of
`StartShutdown`. -/
theorem callbacks_at_return {gs : GracefulShutdown} {sm : ShutdownManager}
    {schedule : List Tid} {s : State} (hs : StartShutdown gs sm [] schedule = some s)
    (hret : s.main = MainPc.ret) :
    s.trace.countP Event.isReturn = gs.callbacks.length ∧
    (∀ i cb, gs.callbacks[i]? = some cb →
      s.trace.count (Event.OnShutdown i sm.GetName) = 1 ∧
      s.trace.count (Event.OnShutdownReturn i (cb.OnShutdown sm.GetName)) = 1) ∧
    (∀ i r, Event.OnShutdownReturn i r ∈ s.trace →
      ∃ cb, gs.callbacks[i]? = some cb ∧ r = cb.OnShutdown sm.GetName) := by
  obtain ⟨_, mid, htr, hperm⟩ := complete_trace hs hret
  rw [List.nil_append] at htr
  refine ⟨?_, fun i cb hcb => ⟨?_, ?_⟩, fun i r hmem => ?_⟩
  · rw [htr, countP_completeRun gs sm mid _
        (fun e he => by cases e <;> simp_all [Event.isOnError, Event.isReturn]),
      hperm.countP_eq, countP_scriptsFrom_isReturn]
    simp [Event.isReturn]
  · rw [htr, count_completeRun gs sm mid (Event.OnShutdown i sm.GetName) rfl rfl,
      hperm.count_eq]
    have hi : i < gs.callbacks.length := (List.getElem?_eq_some_iff.mp hcb).1
    have hmem := entry_mem_scriptsFrom gs sm gs.callbacks 0 i cb hcb
    simp only [Nat.add_zero] at hmem
    refine count_eq_one_of_mem _ _ (Event.isOnShutdownOf i) (by simp [Event.isOnShutdownOf])
      ?_ hmem
    rw [countP_scriptsFrom_isOnShutdownOf]
    simp [hi]
  · rw [htr, count_completeRun gs sm mid
      (Event.OnShutdownReturn i (cb.OnShutdown sm.GetName)) rfl rfl, hperm.count_eq]
    have hi : i < gs.callbacks.length := (List.getElem?_eq_some_iff.mp hcb).1
    have hmem := return_mem_scriptsFrom gs sm gs.callbacks 0 i cb hcb
    simp only [Nat.add_zero] at hmem
    refine count_eq_one_of_mem _ _ (Event.isReturnOf i) (by simp [Event.isReturnOf])
      ?_ hmem
    rw [countP_scriptsFrom_isReturnOf]
    simp [hi]
  · rw [htr] at hmem
    exact mem_completeRun_return gs sm mid hperm i r hmem

end shutdown

/-! ## The cancellation-token coordinator: lemmas -/

namespace cgracefulshutdown

theorem handleShutdown.callbacks_of_handler (gs : GracefulShutdown) (h : ErrorHandler)
    (hset : gs.errorHandler = some h) (cbs : List ShutdownCallback) (i : Nat)
    (trace : List Event) :
    handleShutdown.callbacks gs cbs i trace
      = (trace ++ (cbs.enumFrom i).flatMap (executeCall h), none) := by
  induction cbs generalizing i trace with
  | nil => simp [handleShutdown.callbacks]
  | cons cb cbs ih =>
    cases hcb : cb.Execute with
    | none => simp [handleShutdown.callbacks, hcb, ih, List.enumFrom_cons, executeCall]
    | some err =>
      simp [handleShutdown.callbacks, hcb, hset, ih, List.enumFrom_cons, executeCall]

theorem handleShutdown.callbacks_of_ok (gs : GracefulShutdown)
    (cbs : List ShutdownCallback) (hok : ∀ cb ∈ cbs, cb.Execute = none) (i : Nat)
    (trace : List Event) :
    handleShutdown.callbacks gs cbs i trace
      = (trace ++ (List.range' i cbs.length).map Event.Execute, none) := by
  induction cbs generalizing i trace with
  | nil => simp [handleShutdown.callbacks]
  | cons cb cbs ih =>
    have h0 : cb.Execute = none := hok cb (List.mem_cons_self _ _)
    have h1 : ∀ c ∈ cbs, c.Execute = none := fun c hc => hok c (List.mem_cons_of_mem _ hc)
    simp [handleShutdown.callbacks, h0, ih h1, List.range'_succ]

theorem handleShutdown.managers_eq (hook : Nat → Event) (ms : List ShutdownManager) (i : Nat) :
    handleShutdown.managers hook ms i = (List.range' i ms.length).map hook := by
  induction ms generalizing i with
  | nil => simp [handleShutdown.managers]
  | cons m ms ih => simp [handleShutdown.managers, ih, List.range'_succ]

theorem Start.loop_gs (gs : GracefulShutdown) (ms : List ShutdownManager) (i : Nat)
    (trace : List Event) : (Start.loop gs ms i trace).gs = gs := by
  induction ms generalizing i trace with
  | nil => rfl
  | cons m ms ih =>
    simp only [Start.loop]
    split
    · rfl
    · exact ih _ _

theorem Start.loop_no_failure (gs : GracefulShutdown) (ms : List ShutdownManager) (i : Nat)
    (trace : List Event) (h : ∀ m ∈ ms, m.Start = none) :
    (Start.loop gs ms i trace).err = none ∧ (Start.loop gs ms i trace).launched = true ∧
    (Start.loop gs ms i trace).trace = trace ++ (List.range' i ms.length).map Event.Start := by
  induction ms generalizing i trace with
  | nil => simp [Start.loop]
  | cons m rest ih =>
    have hm : m.Start = none := h m (List.mem_cons_self _ _)
    have hr : ∀ m1 ∈ rest, m1.Start = none := fun m1 h1 => h m1 (List.mem_cons_of_mem _ h1)
    simp [Start.loop, hm, ih (i + 1) _ hr, List.range'_succ]

theorem Start.loop_fails_at (gs : GracefulShutdown) (ms : List ShutdownManager) (i : Nat)
    (trace : List Event) (k : Nat) (m : ShutdownManager) (msg : GoError)
    (hk : ms[k]? = some m) (herr : m.Start = some msg)
    (hbefore : ∀ j m1, j < k → ms[j]? = some m1 → m1.Start = none) :
    (Start.loop gs ms i trace).err = some ("error starting shutdown manager: " ++ msg) ∧
    (Start.loop gs ms i trace).launched = false ∧
    (Start.loop gs ms i trace).trace = trace ++ (List.range' i (k + 1)).map Event.Start := by
  induction ms generalizing i trace k with
  | nil => simp at hk
  | cons m0 rest ih =>
    cases k with
    | zero =>
      simp at hk
      subst hk
      simp [Start.loop, herr]
    | succ k =>
      have h0 : m0.Start = none := hbefore 0 m0 (Nat.succ_pos _) (by simp)
      have hk1 : rest[k]? = some m := by simpa using hk
      have hb : ∀ j m1, j < k → rest[j]? = some m1 → m1.Start = none :=
        fun j m1 hj hm1 => hbefore (j + 1) m1 (Nat.succ_lt_succ hj) (by simpa using hm1)
      simp [Start.loop, h0, ih (i + 1) _ k hk1 hb, List.range'_succ]

theorem apply_shutdownStarted (gs : GracefulShutdown) (op : Op) :
    (Op.apply gs op).shutdownStarted = gs.shutdownStarted := by
  cases op <;>
    simp [Op.apply, AddShutdownManager, AddShutdownCallback, SetErrorHandler, Start,
      Start.loop_gs]

theorem apply_shutdownCancel (gs : GracefulShutdown) (op : Op) :
    (Op.apply gs op).shutdownCancel
      = if op.isStart then some CancelFunc.cancelDerived else gs.shutdownCancel := by
  cases op <;>
    simp [Op.apply, AddShutdownManager, AddShutdownCallback, SetErrorHandler, Start,
      Start.loop_gs, Op.isStart, WithCancel]

theorem applyOps_shutdownStarted (gs : GracefulShutdown) (ops : List Op) :
    (applyOps gs ops).shutdownStarted = gs.shutdownStarted := by
  induction ops generalizing gs with
  | nil => rfl
  | cons op ops ih =>
    simp only [applyOps, List.foldl_cons] at ih ⊢
    rw [ih, apply_shutdownStarted]

theorem applyOps_shutdownCancel (gs : GracefulShutdown) (ops : List Op) :
    (applyOps gs ops).shutdownCancel
      = if ops.any Op.isStart then some CancelFunc.cancelDerived else gs.shutdownCancel := by
  induction ops generalizing gs with
  | nil => rfl
  | cons op ops ih =>
    simp only [applyOps, List.foldl_cons, List.any_cons] at ih ⊢
    rw [ih, apply_shutdownCancel]
    by_cases h1 : op.isStart = true <;> by_cases h2 : ops.any Op.isStart = true <;>
      simp [h1, h2]

theorem SameRegistry.refl (gs : GracefulShutdown) : SameRegistry gs gs :=
  ⟨rfl, rfl, rfl, rfl, rfl⟩

theorem handleShutdown.callbacks_congr (gs gs1 : GracefulShutdown)
    (h : gs1.errorHandler = gs.errorHandler) (cbs : List ShutdownCallback) (i : Nat)
    (trace : List Event) :
    handleShutdown.callbacks gs1 cbs i trace = handleShutdown.callbacks gs cbs i trace := by
  induction cbs generalizing i trace with
  | nil => rfl
  | cons cb cbs ih =>
    simp only [handleShutdown.callbacks, h, ih]

theorem handleShutdown_gs (gs : GracefulShutdown) : (handleShutdown gs).gs = gs := by
  unfold handleShutdown
  split <;> rfl

theorem handleShutdown_congr {gs gs1 : GracefulShutdown} (h : SameRegistry gs gs1) :
    (handleShutdown gs1).trace = (handleShutdown gs).trace ∧
    (handleShutdown gs1).fault = (handleShutdown gs).fault := by
  unfold handleShutdown
  rw [handleShutdown.callbacks_congr gs gs1 h.handler_eq, h.callbacks_eq, h.managers_eq]
  split <;> simp

theorem StartShutdown_registry (gs : GracefulShutdown) :
    SameRegistry gs (StartShutdown gs).gs := by
  unfold StartShutdown
  split
  · exact SameRegistry.refl gs
  · split <;> exact ⟨rfl, rfl, rfl, rfl, rfl⟩

theorem SameRegistry.trans {a b c : GracefulShutdown} (h1 : SameRegistry a b)
    (h2 : SameRegistry b c) : SameRegistry a c :=
  ⟨h2.name_eq.trans h1.name_eq, h2.managers_eq.trans h1.managers_eq,
    h2.callbacks_eq.trans h1.callbacks_eq, h2.handler_eq.trans h1.handler_eq,
    h2.cancel_eq.trans h1.cancel_eq⟩

theorem mem_StartShutdown_trace (gs : GracefulShutdown) (e : Event)
    (h : e ∈ (StartShutdown gs).trace) : e = Event.Cancel := by
  unfold StartShutdown at h
  split at h
  · simp at h
  · split at h
    · simp at h
    · simpa using h

/-- Whatever the coordinator and the schedule, every call in the trace is the call of the
cancel function or one of the calls of `handleShutdown`, and the registries do not
change. -/
theorem trace_subset (gs : GracefulShutdown) (schedule : List Tid) (s s1 : State)
    (hreg : SameRegistry gs s.gs)
    (htr : ∀ e ∈ s.trace, e = Event.Cancel ∨ e ∈ (handleShutdown gs).trace)
    (hs : run s schedule = some s1) :
    SameRegistry gs s1.gs ∧
    ∀ e ∈ s1.trace, e = Event.Cancel ∨ e ∈ (handleShutdown gs).trace := by
  induction schedule generalizing s with
  | nil =>
    simp only [run, Option.some.injEq] at hs
    subst hs
    exact ⟨hreg, htr⟩
  | cons t rest ih =>
    simp only [run] at hs
    split at hs
    · rename_i s2 h2
      refine ih s2 ?_ ?_ hs
      · unfold step at h2
        split at h2
        · cases h2
        · split at h2
          · unfold stepParent at h2
            split at h2
            · cases h2
            · split at h2
              · cases h2
              · simp only [Option.some.injEq] at h2
                subst h2
                exact ⟨hreg.name_eq, hreg.managers_eq, hreg.callbacks_eq, hreg.handler_eq,
                  hreg.cancel_eq⟩
          · unfold stepHandler at h2
            split at h2
            · split at h2
              · simp only [Option.some.injEq] at h2; subst h2; exact hreg
              · split at h2
                · simp only [Option.some.injEq] at h2; subst h2; exact hreg
                · cases h2
            · split at h2
              · cases h2
              · simp only [Option.some.injEq] at h2; subst h2; exact hreg
            · split at h2 <;>
              · simp only [Option.some.injEq] at h2
                subst h2
                simpa [handleShutdown_gs] using hreg
            · simp only [Option.some.injEq] at h2; subst h2; exact hreg
            · cases h2
            · cases h2
          · unfold stepCaller at h2
            split at h2
            · cases h2
            · split at h2
              · split at h2
                · cases h2
                · simp only [Option.some.injEq] at h2; subst h2; exact hreg
              · split at h2 <;>
                · simp only [Option.some.injEq] at h2
                  subst h2
                  exact hreg.trans (StartShutdown_registry s.gs)
              · simp only [Option.some.injEq] at h2; subst h2; exact hreg
              · cases h2
              · cases h2
      · unfold step at h2
        split at h2
        · cases h2
        · split at h2
          · unfold stepParent at h2
            split at h2
            · cases h2
            · split at h2
              · cases h2
              · simp only [Option.some.injEq] at h2
                subst h2
                exact htr
          · unfold stepHandler at h2
            split at h2
            · split at h2
              · simp only [Option.some.injEq] at h2; subst h2; exact htr
              · split at h2
                · simp only [Option.some.injEq] at h2; subst h2; exact htr
                · cases h2
            · split at h2
              · cases h2
              · simp only [Option.some.injEq] at h2; subst h2; exact htr
            · split at h2 <;>
              · simp only [Option.some.injEq] at h2
                subst h2
                intro e he
                simp only [List.mem_append] at he
                rcases he with he | he
                · exact htr e he
                · rw [(handleShutdown_congr hreg).1] at he
                  exact Or.inr he
            · simp only [Option.some.injEq] at h2; subst h2; exact htr
            · cases h2
            · cases h2
          · unfold stepCaller at h2
            split at h2
            · cases h2
            · split at h2
              · split at h2
                · cases h2
                · simp only [Option.some.injEq] at h2; subst h2; exact htr
              · split at h2 <;>
                · simp only [Option.some.injEq] at h2
                  subst h2
                  intro e he
                  simp only [List.mem_append] at he
                  rcases he with he | he
                  · exact htr e he
                  · exact Or.inl (mem_StartShutdown_trace s.gs e he)
              · simp only [Option.some.injEq] at h2; subst h2; exact htr
              · cases h2
              · cases h2
    · cases hs

theorem expectedTrace_congr (gs : GracefulShutdown) (s s1 : State)
    (h1 : s1.gs.shutdownStarted = s.gs.shutdownStarted)
    (h2 : s1.handler.ranLoops = s.handler.ranLoops) :
    expectedTrace gs s1 = expectedTrace gs s := by
  simp [expectedTrace, h1, h2]

theorem Inv.preserved_stepParent {gs : GracefulShutdown} {k : Nat} {s s1 : State}
    (h : Inv gs k s) (hs : stepParent s = some s1) : Inv gs k s1 := by
  obtain ⟨hreg, ⟨c, hc, hc1, hc2⟩, hcr, hh, hcs, hlen, hmx, hps, htr⟩ := h
  unfold stepParent at hs
  rw [hc] at hs
  simp only at hs
  split at hs
  · cases hs
  · simp only [Option.some.injEq] at hs
    subst hs
    exact ⟨⟨hreg.name_eq, hreg.managers_eq, hreg.callbacks_eq, hreg.handler_eq, hreg.cancel_eq⟩,
      ⟨_, rfl, fun _ => rfl, fun _ => rfl⟩, hcr, hh, hcs, hlen, hmx, hps, htr⟩

theorem Inv.preserved_stepHandler {gs : GracefulShutdown} {k : Nat} {s s1 : State}
    (hok : (handleShutdown gs).fault = none)
    (h : Inv gs k s) (hs : stepHandler s = some s1) : Inv gs k s1 := by
  obtain ⟨hreg, ⟨c, hc, hc1, hc2⟩, hcr, hh, hcs, hlen, hmx, hps, htr⟩ := h
  unfold stepHandler at hs
  split at hs
  · -- waiting
    rename_i hpc
    rw [hc] at hs
    simp only at hs
    split at hs
    · rename_i hdone
      simp only [Option.some.injEq] at hs
      subst hs
      refine ⟨hreg, ⟨c, hc, hc1, fun _ => hdone⟩, hcr, by simp, hcs, hlen, ?_, hps, ?_⟩
      · simpa [holders, hpc, HandlerPc.holding] using hmx
      · simpa [expectedTrace, hpc, HandlerPc.ranLoops] using htr
    · cases hs
  · -- locking
    rename_i hpc
    split at hs
    · cases hs
    · rename_i hm
      simp only [Option.some.injEq] at hs
      subst hs
      refine ⟨hreg, ⟨c, hc, hc1, fun _ => hc2 (by simp [hpc])⟩, hcr, by simp, hcs, hlen,
        ?_, hps, ?_⟩
      · have hm1 : s.mutex = false := by simpa using hm
        simp only [holders, hpc, HandlerPc.holding, hm1, Bool.false_eq_true, if_false,
          if_true] at hmx ⊢
        omega
      · simpa [expectedTrace, hpc, HandlerPc.ranLoops] using htr
  · -- locked
    rename_i hpc
    have hf : (handleShutdown s.gs).fault = none := by
      rw [(handleShutdown_congr hreg).2]; exact hok
    rw [hf] at hs
    simp only [Option.some.injEq] at hs
    subst hs
    refine ⟨by simpa [handleShutdown_gs] using hreg,
      ⟨c, by simpa [handleShutdown_gs] using hc, by simpa [handleShutdown_gs] using hc1,
        fun _ => hc2 (by simp [hpc])⟩,
      hcr, by simp, hcs, hlen, ?_, by simpa [handleShutdown_gs] using hps, ?_⟩
    · simpa [holders, hpc, HandlerPc.holding] using hmx
    · simp only [expectedTrace, hpc, HandlerPc.ranLoops, handleShutdown_gs,
        (handleShutdown_congr hreg).1] at htr ⊢
      simp only [Bool.false_eq_true, if_false, List.append_nil, if_true] at htr ⊢
      exact htr.append_right _
  · -- unlocking
    rename_i hpc
    simp only [Option.some.injEq] at hs
    subst hs
    refine ⟨hreg, ⟨c, hc, hc1, fun _ => hc2 (by simp [hpc])⟩, hcr, by simp, hcs, hlen, ?_,
      hps, ?_⟩
    · simp only [holders, hpc, HandlerPc.holding, if_true, Bool.false_eq_true,
        if_false] at hmx ⊢
      cases hm : s.mutex <;>
        simp only [hm, Bool.false_eq_true, if_false, if_true] at hmx <;> omega
    · simpa [expectedTrace, hpc, HandlerPc.ranLoops] using htr
  · cases hs
  · cases hs

theorem ne_panicked_of_mem_set (l : List CallerPc) (j : Nat) (pc : CallerPc)
    (hl : ∀ p ∈ l, p ≠ CallerPc.panicked) (hpc : pc ≠ CallerPc.panicked) :
    ∀ p ∈ l.set j pc, p ≠ CallerPc.panicked := by
  intro p hp
  rcases List.mem_or_eq_of_mem_set hp with h | h
  · exact hl p h
  · rw [h]; exact hpc

theorem StartShutdown_of_started (gs : GracefulShutdown) (h : gs.shutdownStarted = true) :
    (StartShutdown gs).gs = gs ∧ (StartShutdown gs).trace = [] ∧
    (StartShutdown gs).fault = none := by
  simp [StartShutdown, h]

theorem StartShutdown_of_not_started (gs : GracefulShutdown) (cf : CancelFunc)
    (h : gs.shutdownStarted = false) (hc : gs.shutdownCancel = some cf) :
    (StartShutdown gs).gs
      = { gs with shutdownStarted := true,
                  shutdownCtx := gs.shutdownCtx.map (fun c => { c with done := true }) } ∧
    (StartShutdown gs).trace = [Event.Cancel] ∧ (StartShutdown gs).fault = none := by
  simp [StartShutdown, h, hc]

theorem Inv.preserved_stepCaller {gs : GracefulShutdown} {k : Nat} {s s1 : State}
    (cf : CancelFunc) (hcancel : gs.shutdownCancel = some cf) (j : Nat)
    (h : Inv gs k s) (hs : stepCaller s j = some s1) : Inv gs k s1 := by
  obtain ⟨hreg, ⟨c, hc, hc1, hc2⟩, hcr, hh, hcs, hlen, hmx, hps, htr⟩ := h
  unfold stepCaller at hs
  split at hs
  · cases hs
  · rename_i pc hj
    have hcount := fun b => shutdown.countP_set_add CallerPc.holding s.callers j pc b hj
    have hpassed := fun b => shutdown.countP_set_add CallerPc.passed s.callers j pc b hj
    split at hs
    · -- entry
      split at hs
      · cases hs
      · rename_i hm
        simp only [Option.some.injEq] at hs
        subst hs
        have hm1 : s.mutex = false := by simpa using hm
        have h1 := hcount CallerPc.locked
        have h2 := hpassed CallerPc.locked
        simp only [CallerPc.holding, CallerPc.passed, Bool.false_eq_true, if_false,
          if_true, Nat.add_zero] at h1 h2
        refine ⟨hreg, ⟨c, hc, hc1, hc2⟩, hcr, hh,
          ne_panicked_of_mem_set _ _ _ hcs (by simp), by simpa using hlen, ?_, ?_, ?_⟩
        · simp only [holders, hm1, Bool.false_eq_true, if_false, if_true] at hmx ⊢
          omega
        · intro hp
          simp only at hp
          exact hps (by omega)
        · exact htr
    · -- locked
      by_cases hst : s.gs.shutdownStarted = true
      · obtain ⟨e1, e2, e3⟩ := StartShutdown_of_started s.gs hst
        rw [e3] at hs
        simp only [Option.some.injEq] at hs
        subst hs
        have h1 := hcount CallerPc.unlocking
        simp only [CallerPc.holding, if_true] at h1
        refine ⟨by rw [e1]; exact hreg, ⟨c, by rw [e1]; exact hc, by rw [e1]; exact hc1, hc2⟩,
          hcr, hh, ne_panicked_of_mem_set _ _ _ hcs (by simp), by simpa using hlen, ?_, ?_, ?_⟩
        · simp only [holders] at hmx ⊢
          omega
        · intro _
          rw [e1]
          exact hst
        · simpa [e2, expectedTrace, e1] using htr
      · have hst1 : s.gs.shutdownStarted = false := by simpa using hst
        obtain ⟨e1, e2, e3⟩ := StartShutdown_of_not_started s.gs cf hst1
          (by rw [hreg.cancel_eq]; exact hcancel)
        rw [e3] at hs
        simp only [Option.some.injEq] at hs
        subst hs
        have h1 := hcount CallerPc.unlocking
        simp only [CallerPc.holding, if_true] at h1
        refine ⟨by rw [e1]; exact ⟨hreg.name_eq, hreg.managers_eq, hreg.callbacks_eq,
            hreg.handler_eq, hreg.cancel_eq⟩,
          ⟨{ c with done := true }, by rw [e1]; simp [hc], fun _ => rfl, fun _ => rfl⟩,
          hcr, hh, ne_panicked_of_mem_set _ _ _ hcs (by simp), by simpa using hlen, ?_, ?_, ?_⟩
        · simp only [holders] at hmx ⊢
          omega
        · intro _
          rw [e1]
        · simp only [e2, expectedTrace, e1, hst1, Bool.false_eq_true, if_false, if_true,
            List.nil_append] at htr ⊢
          exact (List.perm_append_comm).trans (List.Perm.append_left _ htr)
    · -- unlocking
      simp only [Option.some.injEq] at hs
      subst hs
      have h1 := hcount CallerPc.returned
      have h2 := hpassed CallerPc.returned
      simp only [CallerPc.holding, CallerPc.passed, Bool.false_eq_true, if_false,
        if_true, Nat.add_zero] at h1 h2
      refine ⟨hreg, ⟨c, hc, hc1, hc2⟩, hcr, hh,
        ne_panicked_of_mem_set _ _ _ hcs (by simp), by simpa using hlen, ?_, ?_, ?_⟩
      · simp only [holders] at hmx ⊢
        cases hhold : s.handler.holding <;> cases hm : s.mutex <;>
          simp only [hhold, hm, Bool.false_eq_true, if_false, if_true] at hmx ⊢ <;> omega
      · intro hp
        simp only at hp
        exact hps (by omega)
      · exact htr
    · cases hs
    · cases hs

theorem Inv.kept_by_step {gs : GracefulShutdown} {k : Nat} {s s1 : State}
    (hok : (handleShutdown gs).fault = none) (cf : CancelFunc)
    (hcancel : gs.shutdownCancel = some cf) (t : Tid)
    (h : Inv gs k s) (hs : step s t = some s1) : Inv gs k s1 := by
  unfold cgracefulshutdown.step at hs
  split at hs
  · cases hs
  · cases t with
    | parent => exact h.preserved_stepParent hs
    | handler => exact h.preserved_stepHandler hok hs
    | caller j => exact h.preserved_stepCaller cf hcancel j hs

theorem Inv.kept_by_run {gs : GracefulShutdown} {k : Nat}
    (hok : (handleShutdown gs).fault = none) (cf : CancelFunc)
    (hcancel : gs.shutdownCancel = some cf) (schedule : List Tid) {s s1 : State}
    (h : Inv gs k s) (hs : run s schedule = some s1) : Inv gs k s1 := by
  induction schedule generalizing s with
  | nil =>
    simp only [cgracefulshutdown.run, Option.some.injEq] at hs
    subst hs
    exact h
  | cons t rest ih =>
    simp only [cgracefulshutdown.run] at hs
    split at hs
    · rename_i s2 h2
      exact ih (h.kept_by_step hok cf hcancel t h2) hs
    · cases hs

theorem Inv.holds_init (gs : GracefulShutdown) (k : Nat) (c : Context)
    (hstarted : gs.shutdownStarted = false) (hctx : gs.shutdownCtx = some c) :
    Inv gs k { gs := gs, mutex := false, handler := HandlerPc.waiting,
               callers := List.replicate k CallerPc.entry, trace := [], crashed := false } := by
  refine ⟨SameRegistry.refl gs, ⟨c, hctx, ?_, ?_⟩, rfl, ?_, ?_, ?_, ?_, ?_, ?_⟩
  · intro h
    simp [hstarted] at h
  · intro h
    simp at h
  · simp
  · intro pc hpc
    simp only [List.mem_replicate] at hpc
    rw [hpc.2]
    simp
  · simp
  · simp [holders, HandlerPc.holding, List.countP_replicate,
      CallerPc.holding]
  · intro h
    simp [List.countP_replicate, CallerPc.passed] at h
  · simp [expectedTrace, hstarted, HandlerPc.ranLoops]

theorem parentRemaining_StartShutdown (gs : GracefulShutdown) :
    parentRemaining (StartShutdown gs).gs ≤ parentRemaining gs := by
  unfold StartShutdown
  split
  · exact Nat.le_refl _
  · split
    · exact Nat.le_refl _
    · simp only [parentRemaining]
      cases gs.shutdownCtx <;> simp

theorem remaining_step_lt {s s1 : State} (t : Tid) (hs : step s t = some s1) :
    remaining s1 + 1 ≤ remaining s := by
  unfold cgracefulshutdown.step at hs
  split at hs
  · cases hs
  · cases t with
    | parent =>
      simp only at hs
      unfold stepParent at hs
      split at hs
      · cases hs
      · rename_i c hc
        split at hs
        · cases hs
        · rename_i hd
          simp only [Option.some.injEq] at hs
          subst hs
          have hd1 : c.done = false := by simpa using hd
          simp only [remaining, parentRemaining, hc, hd1, Bool.false_eq_true, if_false,
            if_true]
          omega
    | handler =>
      simp only at hs
      unfold stepHandler at hs
      split at hs
      · rename_i hpc
        split at hs
        · simp only [Option.some.injEq] at hs
          subst hs
          simp only [remaining, hpc, handlerRemaining]
          omega
        · split at hs
          · simp only [Option.some.injEq] at hs
            subst hs
            simp only [remaining, hpc, handlerRemaining]
            omega
          · cases hs
      · rename_i hpc
        split at hs
        · cases hs
        · simp only [Option.some.injEq] at hs
          subst hs
          simp only [remaining, hpc, handlerRemaining]
          omega
      · rename_i hpc
        split at hs <;>
        · simp only [Option.some.injEq] at hs
          subst hs
          simp only [remaining, hpc, handlerRemaining, handleShutdown_gs]
          omega
      · rename_i hpc
        simp only [Option.some.injEq] at hs
        subst hs
        simp only [remaining, hpc, handlerRemaining]
        omega
      · cases hs
      · cases hs
    | caller j =>
      simp only at hs
      unfold stepCaller at hs
      split at hs
      · cases hs
      · rename_i pc hj
        have hsum := fun b => shutdown.sum_map_set_add callerRemaining s.callers j pc b hj
        split at hs
        · split at hs
          · cases hs
          · simp only [Option.some.injEq] at hs
            subst hs
            have := hsum CallerPc.locked
            simp only [remaining, callerRemaining] at this ⊢
            omega
        · have hp := parentRemaining_StartShutdown s.gs
          split at hs
          · simp only [Option.some.injEq] at hs
            subst hs
            have := hsum CallerPc.unlocking
            simp only [remaining, callerRemaining] at this ⊢
            omega
          · simp only [Option.some.injEq] at hs
            subst hs
            have := hsum CallerPc.panicked
            simp only [remaining, callerRemaining] at this ⊢
            omega
        · simp only [Option.some.injEq] at hs
          subst hs
          have := hsum CallerPc.returned
          simp only [remaining, callerRemaining] at this ⊢
          omega
        · cases hs
        · cases hs

theorem remaining_run_le (schedule : List Tid) {s s1 : State} (hs : run s schedule = some s1) :
    remaining s1 + schedule.length ≤ remaining s := by
  induction schedule generalizing s with
  | nil =>
    simp only [cgracefulshutdown.run, Option.some.injEq] at hs
    subst hs
    simp
  | cons t rest ih =>
    simp only [cgracefulshutdown.run] at hs
    split at hs
    · rename_i s2 h2
      have h3 := ih hs
      have h4 := remaining_step_lt t h2
      simp only [List.length_cons]
      omega
    · cases hs

theorem stepCaller_of_holding (s : State) (j : Nat) (pc : CallerPc)
    (hj : s.callers[j]? = some pc) (hh : pc.holding = true) :
    ∃ s1, stepCaller s j = some s1 := by
  unfold stepCaller
  rw [hj]
  cases pc with
  | locked =>
    simp only
    split <;> exact ⟨_, rfl⟩
  | unlocking => exact ⟨_, rfl⟩
  | entry => simp [CallerPc.holding] at hh
  | returned => simp [CallerPc.holding] at hh
  | panicked => simp [CallerPc.holding] at hh

theorem stepHandler_of_holding (s : State) (hh : s.handler.holding = true) :
    ∃ s1, stepHandler s = some s1 := by
  unfold stepHandler
  cases hpc : s.handler with
  | locked =>
    simp only
    split <;> exact ⟨_, rfl⟩
  | unlocking => exact ⟨_, rfl⟩
  | waiting => simp [hpc, HandlerPc.holding] at hh
  | locking => simp [hpc, HandlerPc.holding] at hh
  | finished => simp [hpc, HandlerPc.holding] at hh
  | panicked => simp [hpc, HandlerPc.holding] at hh

theorem Inv.can_step {gs : GracefulShutdown} {k : Nat} {s : State} (hk : 1 ≤ k)
    (h : Inv gs k s) (hfin : s.finished = false) : ∃ t s1, step s t = some s1 := by
  obtain ⟨hreg, ⟨c, hc, hc1, hc2⟩, hcr, hh, hcs, hlen, hmx, hps, htr⟩ := h
  have hstep : ∀ t, step s t = (match t with
      | .parent => stepParent s
      | .handler => stepHandler s
      | .caller j => stepCaller s j) := by
    intro t
    cases t <;> simp [cgracefulshutdown.step, hcr]
  by_cases hhold : s.handler.holding = true
  · obtain ⟨s1, h1⟩ := stepHandler_of_holding s hhold
    exact ⟨Tid.handler, s1, by rw [hstep]; exact h1⟩
  · have hhold1 : s.handler.holding = false := by simpa using hhold
    by_cases hcount : 0 < s.callers.countP CallerPc.holding
    · rw [List.countP_pos_iff] at hcount
      obtain ⟨pc, hpc, hp⟩ := hcount
      obtain ⟨j, hj⟩ := List.getElem?_of_mem hpc
      obtain ⟨s1, h1⟩ := stepCaller_of_holding s j pc hj hp
      exact ⟨Tid.caller j, s1, by rw [hstep]; exact h1⟩
    · have hzero : s.callers.countP CallerPc.holding = 0 := by omega
      have hm : s.mutex = false := by
        simp only [holders, hzero, hhold1, Bool.false_eq_true, if_false] at hmx
        cases hmu : s.mutex
        · rfl
        · simp [hmu] at hmx
      by_cases hentry : CallerPc.entry ∈ s.callers
      · obtain ⟨j, hj⟩ := List.getElem?_of_mem hentry
        refine ⟨Tid.caller j, ?_⟩
        rw [hstep]
        simp [stepCaller, hj, hm]
      · have hall : ∀ pc ∈ s.callers, pc = CallerPc.returned := by
          intro pc hpc
          cases pc with
          | entry => exact absurd hpc hentry
          | locked =>
            have : 0 < s.callers.countP CallerPc.holding :=
              List.countP_pos_iff.mpr ⟨_, hpc, rfl⟩
            omega
          | unlocking =>
            have : 0 < s.callers.countP CallerPc.holding :=
              List.countP_pos_iff.mpr ⟨_, hpc, rfl⟩
            omega
          | returned => rfl
          | panicked => exact absurd rfl (hcs _ hpc)
        have hne : s.callers ≠ [] := by
          intro hnil
          rw [hnil] at hlen
          simp at hlen
          omega
        obtain ⟨pc0, hpc0⟩ := List.exists_mem_of_ne_nil _ hne
        have hstarted : s.gs.shutdownStarted = true := by
          apply hps
          rw [List.countP_pos_iff]
          exact ⟨pc0, hpc0, by rw [hall pc0 hpc0]; rfl⟩
        refine ⟨Tid.handler, ?_⟩
        rw [hstep]
        simp only
        cases hpc : s.handler with
        | waiting => simp [stepHandler, hpc, hc, hc1 hstarted]
        | locking => simp [stepHandler, hpc, hm]
        | locked => simp [hpc, HandlerPc.holding] at hhold1
        | unlocking => simp [hpc, HandlerPc.holding] at hhold1
        | finished =>
          exfalso
          have : s.finished = true := by
            simp only [State.finished, hpc, beq_self_eq_true, Bool.and_true, List.all_eq_true]
            intro pc hp
            rw [hall pc hp]
            rfl
          rw [this] at hfin
          cases hfin
        | panicked => exact absurd hpc hh

theorem Inv.reaches_finished {gs : GracefulShutdown} {k : Nat} (hk : 1 ≤ k)
    (hok : (handleShutdown gs).fault = none) (cf : CancelFunc)
    (hcancel : gs.shutdownCancel = some cf) (n : Nat) (s : State)
    (h : Inv gs k s) (hn : remaining s ≤ n) :
    ∃ more s1, run s more = some s1 ∧ s1.finished = true := by
  induction n generalizing s with
  | zero =>
    cases hfin : s.finished with
    | true => exact ⟨[], s, rfl, hfin⟩
    | false =>
      obtain ⟨t, s1, h1⟩ := h.can_step hk hfin
      have := remaining_step_lt t h1
      omega
  | succ n ih =>
    cases hfin : s.finished with
    | true => exact ⟨[], s, rfl, hfin⟩
    | false =>
      obtain ⟨t, s1, h1⟩ := h.can_step hk hfin
      have hdec := remaining_step_lt t h1
      obtain ⟨more, s2, h2, h3⟩ := ih s1 (h.kept_by_step hok cf hcancel t h1) (by omega)
      refine ⟨t :: more, s2, ?_, h3⟩
      simp [cgracefulshutdown.run, h1, h2]

theorem count_callbacks (gs : GracefulShutdown) (cbs : List ShutdownCallback) (i : Nat)
    (trace : List Event) (hok : (handleShutdown.callbacks gs cbs i trace).2 = none) :
    (∀ j, (handleShutdown.callbacks gs cbs i trace).1.count (Event.Execute j)
      = trace.count (Event.Execute j) + (if i ≤ j ∧ j < i + cbs.length then 1 else 0)) ∧
    (∀ e, e.isLoopCall = false →
      (handleShutdown.callbacks gs cbs i trace).1.count e = trace.count e) := by
  induction cbs generalizing i trace with
  | nil =>
    refine ⟨fun j => ?_, fun e _ => rfl⟩
    have : ¬ (i ≤ j ∧ j < i) := by omega
    simp [handleShutdown.callbacks, this]
  | cons cb cbs ih =>
    simp only [handleShutdown.callbacks] at hok ⊢
    split at hok
    · rename_i hcb
      obtain ⟨h1, h2⟩ := ih (i + 1) _ hok
      refine ⟨fun j => ?_, fun e he => ?_⟩
      · rw [h1 j]
        simp only [List.count_append, List.count_cons, List.count_nil, List.length_cons,
          beq_iff_eq, Event.Execute.injEq]
        split_ifs <;> omega
      · rw [h2 e he, List.count_append]
        cases e <;> simp_all [Event.isLoopCall]
    · rename_i err hcb
      split at hok
      · cases hok
      · rename_i hh hset
        obtain ⟨h1, h2⟩ := ih (i + 1) _ hok
        refine ⟨fun j => ?_, fun e he => ?_⟩
        · rw [h1 j]
          simp only [List.count_append, List.count_cons, List.count_nil, List.length_cons,
            beq_iff_eq, Event.Execute.injEq]
          simp only [reduceCtorEq, if_false]
          split_ifs <;> omega
        · rw [h2 e he, List.count_append]
          cases e <;> simp_all [Event.isLoopCall]

theorem count_managers (hook : Nat → Event) (hinj : ∀ a b, hook a = hook b → a = b)
    (ms : List ShutdownManager) (i j : Nat) :
    (handleShutdown.managers hook ms i).count (hook j)
      = if i ≤ j ∧ j < i + ms.length then 1 else 0 := by
  induction ms generalizing i with
  | nil =>
    have : ¬ (i ≤ j ∧ j < i) := by omega
    simp [handleShutdown.managers, this]
  | cons m ms ih =>
    simp only [handleShutdown.managers, List.count_cons, ih, List.length_cons, beq_iff_eq]
    by_cases hij : i = j
    · subst hij
      simp
    · have : ¬ hook i = hook j := fun h => hij (hinj _ _ h)
      simp only [this, if_false]
      split_ifs <;> omega

theorem count_managers_other (hook : Nat → Event) (e : Event) (hne : ∀ a, hook a ≠ e)
    (ms : List ShutdownManager) (i : Nat) :
    (handleShutdown.managers hook ms i).count e = 0 := by
  induction ms generalizing i with
  | nil => simp [handleShutdown.managers]
  | cons m ms ih =>
    simp only [handleShutdown.managers, List.count_cons, ih, beq_iff_eq]
    simp [hne i]

theorem count_handleShutdown (gs : GracefulShutdown) (hok : (handleShutdown gs).fault = none) :
    (handleShutdown gs).trace.count Event.Cancel = 0 ∧
    (∀ i, (handleShutdown gs).trace.count (Event.Execute i)
      = if i < gs.callbacks.length then 1 else 0) ∧
    (∀ j, (handleShutdown gs).trace.count (Event.BeginShutdown j)
      = if j < gs.shutdownManagers.length then 1 else 0) ∧
    (∀ j, (handleShutdown gs).trace.count (Event.EndShutdown j)
      = if j < gs.shutdownManagers.length then 1 else 0) := by
  unfold handleShutdown at hok ⊢
  cases hcb : handleShutdown.callbacks gs gs.callbacks 0 [] with
  | mk tr f =>
    rw [hcb] at hok
    cases f with
    | some f => simp at hok
    | none =>
      have hnone : (handleShutdown.callbacks gs gs.callbacks 0 []).2 = none := by rw [hcb]
      obtain ⟨h1, h2⟩ := count_callbacks gs gs.callbacks 0 [] hnone
      rw [hcb] at h1 h2
      simp only at h1 h2 ⊢
      have hB := count_managers Event.BeginShutdown (fun a b h => by simpa using h)
        gs.shutdownManagers 0
      have hE := count_managers Event.EndShutdown (fun a b h => by simpa using h)
        gs.shutdownManagers 0
      refine ⟨?_, fun i => ?_, fun j => ?_, fun j => ?_⟩
      · rw [List.count_append, List.count_append, h2 Event.Cancel rfl,
          count_managers_other Event.BeginShutdown _ (fun a => by simp),
          count_managers_other Event.EndShutdown _ (fun a => by simp)]
        simp
      · rw [List.count_append, List.count_append, h1 i,
          count_managers_other Event.BeginShutdown _ (fun a => by simp),
          count_managers_other Event.EndShutdown _ (fun a => by simp)]
        simp
      · rw [List.count_append, List.count_append, h2 (Event.BeginShutdown j) rfl, hB j,
          count_managers_other Event.EndShutdown _ (fun a => by simp)]
        simp
      · rw [List.count_append, List.count_append, h2 (Event.EndShutdown j) rfl, hE j,
          count_managers_other Event.BeginShutdown _ (fun a => by simp)]
        simp

theorem Start_gs (gs : GracefulShutdown) (ctx : Context) :
    (Start gs ctx).gs = { gs with shutdownCtx := some (WithCancel ctx).1,
                                  shutdownCancel := some (WithCancel ctx).2 } := by
  simp [Start, Start.loop_gs]

theorem handleShutdown_Start (gs : GracefulShutdown) (ctx : Context) :
    (handleShutdown (Start gs ctx).gs).trace = (handleShutdown gs).trace ∧
    (handleShutdown (Start gs ctx).gs).fault = (handleShutdown gs).fault := by
  rw [Start_gs]
  have hc := handleShutdown.callbacks_congr gs
    { gs with shutdownCtx := some (WithCancel ctx).1, shutdownCancel := some (WithCancel ctx).2 }
    rfl gs.callbacks 0 []
  unfold handleShutdown
  simp only [hc]
  split <;> simp

theorem handleShutdown_of_handler (gs : GracefulShutdown) (h : ErrorHandler)
    (hset : gs.errorHandler = some h) : (handleShutdown gs).fault = none := by
  unfold handleShutdown
  rw [handleShutdown.callbacks_of_handler gs h hset]

theorem handleShutdown_of_ok (gs : GracefulShutdown)
    (hok : ∀ cb ∈ gs.callbacks, cb.Execute = none) : (handleShutdown gs).fault = none := by
  unfold handleShutdown
  rw [handleShutdown.callbacks_of_ok gs gs.callbacks hok]

theorem exists_of_map_finished (o : Option State) (b : Bool)
    (h : o.map (fun s => s.finished) = some b) : ∃ s, o = some s ∧ s.finished = b := by
  cases o with
  | none => simp at h
  | some s => exact ⟨s, rfl, by simpa using h⟩

theorem started_of_finished {gs : GracefulShutdown} {k : Nat} {s : State} (hk : 1 ≤ k)
    (h : Inv gs k s) (hfin : s.finished = true) :
    s.gs.shutdownStarted = true ∧ s.handler.ranLoops = true := by
  simp only [State.finished, Bool.and_eq_true, List.all_eq_true, beq_iff_eq] at hfin
  obtain ⟨hall, hh⟩ := hfin
  have hne : s.callers ≠ [] := by
    intro hnil
    have := h.length_eq
    rw [hnil] at this
    simp at this
    omega
  obtain ⟨pc0, hpc0⟩ := List.exists_mem_of_ne_nil _ hne
  refine ⟨h.passed_started ?_, by rw [hh]; rfl⟩
  rw [List.countP_pos_iff]
  exact ⟨pc0, hpc0, by rw [hall pc0 hpc0]; rfl⟩

theorem remaining_init_le (gs : GracefulShutdown) (k : Nat) :
    remaining { gs := gs, mutex := false, handler := HandlerPc.waiting,
                callers := List.replicate k CallerPc.entry, trace := [], crashed := false }
      ≤ 3 * k + 5 := by
  have h1 : parentRemaining gs ≤ 1 := by
    unfold parentRemaining
    split
    · split <;> omega
    · omega
  simp only [remaining, List.map_replicate, List.sum_replicate,
    callerRemaining, handlerRemaining, smul_eq_mul]
  omega

theorem count_expectedTrace (gs : GracefulShutdown) (s : State) (e : Event) :
    (expectedTrace gs s).count e
      = (if s.gs.shutdownStarted then [Event.Cancel].count e else 0)
        + (if s.handler.ranLoops then (handleShutdown gs).trace.count e else 0) := by
  simp only [expectedTrace, List.count_append]
  cases s.gs.shutdownStarted <;> cases s.handler.ranLoops <;> simp

theorem apply_registration_shutdownStarted (gs : GracefulShutdown) (r : Registration) :
    (Registration.apply gs r).shutdownStarted = gs.shutdownStarted := by
  cases r <;>
    simp [Registration.apply, cgracefulshutdown.AddShutdownManager,
      cgracefulshutdown.AddShutdownCallback, cgracefulshutdown.SetErrorHandler]

theorem foldl_registration_shutdownStarted (gs : GracefulShutdown)
    (registrations : List Registration) :
    (registrations.foldl Registration.apply gs).shutdownStarted = gs.shutdownStarted := by
  induction registrations generalizing gs with
  | nil => rfl
  | cons r rest ih =>
    simp only [List.foldl_cons]
    rw [ih, apply_registration_shutdownStarted]

theorem register_shutdownStarted (name : String) (registrations : List Registration) :
    (register name registrations).shutdownStarted = false :=
  foldl_registration_shutdownStarted (NewGracefulShutdown name) registrations

theorem apply_registration_shutdownCancel (gs : GracefulShutdown) (r : Registration) :
    (Registration.apply gs r).shutdownCancel = gs.shutdownCancel ∧
    (Registration.apply gs r).shutdownCtx = gs.shutdownCtx := by
  cases r <;>
    simp [Registration.apply, cgracefulshutdown.AddShutdownManager,
      cgracefulshutdown.AddShutdownCallback, cgracefulshutdown.SetErrorHandler]

theorem foldl_registration_shutdownCancel (gs : GracefulShutdown)
    (registrations : List Registration) :
    (registrations.foldl Registration.apply gs).shutdownCancel = gs.shutdownCancel ∧
    (registrations.foldl Registration.apply gs).shutdownCtx = gs.shutdownCtx := by
  induction registrations generalizing gs with
  | nil => exact ⟨rfl, rfl⟩
  | cons r rest ih =>
    simp only [List.foldl_cons]
    rw [(ih _).1, (ih _).2]
    exact apply_registration_shutdownCancel gs r

theorem Inv.of_startThenShutdown (name : String) (registrations : List Registration)
    (ctx : Context) (k : Nat)
    (hok : (handleShutdown (register name registrations)).fault = none)
    (schedule : List Tid) (s : State)
    (hs : startThenShutdown name registrations ctx k schedule = some s) :
    Inv (Start (register name registrations) ctx).gs k s ∧
    run (init name registrations ctx k) schedule = some s := by
  unfold startThenShutdown at hs
  split at hs
  · refine ⟨?_, hs⟩
    have hG := Start_gs (register name registrations) ctx
    refine Inv.kept_by_run
      (by rw [(handleShutdown_Start (register name registrations) ctx).2]; exact hok)
      (WithCancel ctx).2 (by rw [hG]) schedule
      (Inv.holds_init _ k (WithCancel ctx).1
        (by rw [hG]; exact register_shutdownStarted name registrations) (by rw [hG])) hs
  · cases hs

end cgracefulshutdown

/-! ## The barrier coordinator: properties -/

namespace shutdown

/-- C1. For every coordinator `gs` (in particular one built by `New` and `N` calls of
`AddShutdownCallback`, whose registry is then exactly those `N` callbacks) and every
triggering manager `sm`: `StartShutdown(sm)` returns under some schedule; under every
schedule it makes at most `5 N + 6` steps and can always be run on to its return; and at
its return the goroutines it has launched received exactly the registered callbacks, in
registration order, and have all finished; `OnShutdown` has been entered exactly `N`
times and has returned exactly `N` times in total, exactly once for every registered
position (so a callback registered twice runs twice); every entry received
`sm.GetName()`; for the callback `cb` registered at position `i` the trace holds exactly
one entry `OnShutdown(sm.GetName())` at `i` and exactly one return at `i` with the result
`cb.OnShutdown(sm.GetName())`; and every return in the trace is the return of a
registered callback with that callback's own result. -/
theorem StartShutdown_invokes_each_callback_once (gs : GracefulShutdown)
    (sm : ShutdownManager) :
    (∀ cbs : List ShutdownCallback, (cbs.foldl AddShutdownCallback New).callbacks = cbs) ∧
    (∃ schedule s, StartShutdown gs sm [] schedule = some s ∧ s.main = MainPc.ret) ∧
    ∀ schedule s, StartShutdown gs sm [] schedule = some s →
      schedule.length ≤ 5 * gs.callbacks.length + 6 ∧
      (∃ more s1, run s more = some s1 ∧ s1.main = MainPc.ret) ∧
      (s.main = MainPc.ret →
        s.gos.map (fun g => g.shutdownCallback) = gs.callbacks ∧
        (∀ g ∈ s.gos, g.pc = GoPc.done) ∧
        s.trace.countP Event.isOnShutdown = gs.callbacks.length ∧
        s.trace.countP Event.isReturn = gs.callbacks.length ∧
        (∀ i, i < gs.callbacks.length →
          s.trace.countP (Event.isOnShutdownOf i) = 1 ∧
          s.trace.countP (Event.isReturnOf i) = 1) ∧
        (∀ i arg, Event.OnShutdown i arg ∈ s.trace →
          arg = sm.GetName ∧ i < gs.callbacks.length) ∧
        (∀ i cb, gs.callbacks[i]? = some cb →
          s.trace.count (Event.OnShutdown i sm.GetName) = 1 ∧
          s.trace.count (Event.OnShutdownReturn i (cb.OnShutdown sm.GetName)) = 1) ∧
        (∀ i r, Event.OnShutdownReturn i r ∈ s.trace →
          ∃ cb, gs.callbacks[i]? = some cb ∧ r = cb.OnShutdown sm.GetName)) := by
  refine ⟨fun cbs => by simp [callbacks_foldl_AddShutdownCallback, New], ?_, ?_⟩
  · obtain ⟨more, s1, h1, h2⟩ := exists_complete gs sm [] (init gs sm []) (Inv.at_init gs sm [])
    exact ⟨more, s1, h1, h2⟩
  · intro schedule s hs
    have hinv := Inv.of_StartShutdown hs
    refine ⟨?_, exists_complete gs sm [] s hinv, ?_⟩
    · have := remaining_run schedule hs
      rw [remaining_init] at this
      omega
    · intro hret
      obtain ⟨_, _, _, h3, h4⟩ := counts_at_return hs hret
      obtain ⟨c1, c2, c3⟩ := callbacks_at_return hs hret
      obtain ⟨g1, g2⟩ := hinv.goroutines_at_return (by simp [hret, pastWait])
      refine ⟨g1, g2, by simpa using h3, c1, fun i hi => by simpa using h4 i hi, ?_, c2, c3⟩
      intro i arg hmem
      obtain ⟨_, mid, htr, hperm⟩ := complete_trace hs hret
      rw [htr, List.nil_append] at hmem
      exact mem_completeRun_OnShutdown gs sm mid hperm i arg hmem

/-- C1 at concrete inputs. The scenario of `TestCallbacksGetCalled`: 15 callbacks, manager
`test-sm`, run in lockstep; `StartShutdown` returns and `OnShutdown` was entered exactly
15 times and returned exactly 15 times. And a coordinator whose first callback fails with
a text made from the name it receives and whose second succeeds: the trace holds exactly
one return of each callback, with that callback's result. -/
theorem StartShutdown_fifteen_callbacks :
    (∃ s, StartShutdown (addCallbacks New testCallback 15) testManager [] (lockstepSchedule 15)
        = some s ∧ s.main = MainPc.ret ∧ s.trace.countP Event.isOnShutdown = 15 ∧
      s.trace.countP Event.isReturn = 15 ∧
      ∀ i arg, Event.OnShutdown i arg ∈ s.trace → arg = "test-sm" ∧ i < 15) ∧
    (∃ s, StartShutdown sampleCoordinator failingManager [] (sequentialSchedule 2) = some s ∧
      s.main = MainPc.ret ∧
      s.trace.count (Event.OnShutdownReturn 0 (some "callback failed: failing-sm")) = 1 ∧
      s.trace.count (Event.OnShutdownReturn 1 none) = 1) := by
  constructor
  · obtain ⟨s, hs, hret⟩ := exists_of_map_main
      (StartShutdown (addCallbacks New testCallback 15) testManager [] (lockstepSchedule 15))
      MainPc.ret (by decide)
    have h := ((StartShutdown_invokes_each_callback_once (addCallbacks New testCallback 15)
      testManager).2.2 _ _ hs).2.2 hret
    exact ⟨s, hs, hret, h.2.2.1, h.2.2.2.1, h.2.2.2.2.2.1⟩
  · obtain ⟨s, hs, hret⟩ := exists_of_map_main
      (StartShutdown sampleCoordinator failingManager [] (sequentialSchedule 2))
      MainPc.ret (by decide)
    have h := ((StartShutdown_invokes_each_callback_once sampleCoordinator
      failingManager).2.2 _ _ hs).2.2 hret
    exact ⟨s, hs, hret,
      (h.2.2.2.2.2.2.1 0 { OnShutdown := fun name => some ("callback failed: " ++ name) }
        rfl).2,
      (h.2.2.2.2.2.2.1 1 { OnShutdown := fun _ => none } rfl).2⟩

/-- C3. With an error handler set, whatever the pre-hook, the callbacks and the
post-hook return: an execution of `StartShutdown` can always be run on to its return
(no failure aborts it), and at its return `ShutdownStart` was called once, every
registered callback once and `ShutdownFinish` once, and the multiset of errors delivered
to the handler is exactly the multiset of the non-nil results of the pre-hook, of the
callbacks and of the post-hook. -/
theorem StartShutdown_reports_every_error (gs : GracefulShutdown) (sm : ShutdownManager)
    (h : ErrorHandler) (hset : gs.errorHandler = some h) (schedule : List Tid) (s : State)
    (hs : StartShutdown gs sm [] schedule = some s) :
    (∃ more s1, run s more = some s1 ∧ s1.main = MainPc.ret) ∧
    (s.main = MainPc.ret →
      s.trace.count Event.ShutdownStart = 1 ∧
      (∀ i, i < gs.callbacks.length → s.trace.countP (Event.isOnShutdownOf i) = 1) ∧
      s.trace.countP Event.isOnShutdown = gs.callbacks.length ∧
      s.trace.count Event.ShutdownFinish = 1 ∧
      (↑(delivered s.trace) : Multiset (ErrorHandler × GoError))
        = ↑(((results gs sm).filterMap id).map (fun e => (h, e)))) := by
  refine ⟨exists_complete gs sm [] s (Inv.of_StartShutdown hs), fun hret => ?_⟩
  obtain ⟨_, h1, h2, h3, h4⟩ := counts_at_return hs hret
  obtain ⟨_, mid, htr, hperm⟩ := complete_trace hs hret
  refine ⟨by simpa using h1, fun i hi => by simpa using (h4 i hi).1, by simpa using h3,
    by simpa using h2, ?_⟩
  rw [htr, List.nil_append, Multiset.coe_eq_coe]
  exact delivered_completeRun gs sm h hset mid hperm

/-- C3 at a concrete input: a failing pre-hook, a failing first callback, a second
callback that succeeds, a failing post-hook; all three errors reach the handler. -/
theorem StartShutdown_reports_every_error_witness :
    ∃ s, StartShutdown sampleCoordinator failingManager [] (lockstepSchedule 2) = some s
      ∧ s.main = MainPc.ret
      ∧ (↑(delivered s.trace) : Multiset (ErrorHandler × GoError))
        = ↑[(sampleHandler, "pre-hook failed"),
            (sampleHandler, "callback failed: failing-sm"),
            (sampleHandler, "post-hook failed")] := by
  obtain ⟨s, hs, hret⟩ := exists_of_map_main
    (StartShutdown sampleCoordinator failingManager [] (lockstepSchedule 2)) MainPc.ret
    (by decide)
  exact ⟨s, hs, hret,
    ((StartShutdown_reports_every_error sampleCoordinator failingManager sampleHandler rfl
      _ s hs).2 hret).2.2.2.2⟩

/-- C5. In every state an execution of `StartShutdown` can reach: `ShutdownStart` and
`ShutdownFinish` have each been called at most once, and exactly once when
`StartShutdown` has returned; whatever precedes an entry into a callback's `OnShutdown`
starts with the call of `ShutdownStart` and the report of its error; and whatever
precedes the call of `ShutdownFinish` contains the return of every registered
callback's `OnShutdown`, while nothing after it is an entry into or a return from a
callback. -/
theorem StartShutdown_hooks_around_callbacks (gs : GracefulShutdown) (sm : ShutdownManager)
    (schedule : List Tid) (s : State) (hs : StartShutdown gs sm [] schedule = some s) :
    (s.trace.count Event.ShutdownStart ≤ 1 ∧ s.trace.count Event.ShutdownFinish ≤ 1) ∧
    (s.main = MainPc.ret →
      s.trace.count Event.ShutdownStart = 1 ∧ s.trace.count Event.ShutdownFinish = 1) ∧
    (∀ a b i arg, s.trace = a ++ Event.OnShutdown i arg :: b →
      (Event.ShutdownStart :: (ReportError gs sm.ShutdownStart).2) <+: a) ∧
    (∀ a b, s.trace = a ++ Event.ShutdownFinish :: b →
      (∀ i cb, gs.callbacks[i]? = some cb →
        Event.OnShutdown i sm.GetName ∈ a ∧
        Event.OnShutdownReturn i (cb.OnShutdown sm.GetName) ∈ a) ∧
      (∀ e, e ∈ b → e.isOnShutdown = false ∧ ∀ i, e.isReturnOf i = false)) := by
  have hinv := Inv.of_StartShutdown hs
  refine ⟨count_hooks_le hinv, fun hret => ?_, ?_, ?_⟩
  · obtain ⟨_, h1, h2, _, _⟩ := counts_at_return hs hret
    exact ⟨by simpa using h1, by simpa using h2⟩
  · intro a b i arg hab
    obtain ⟨mid, htr, hperm⟩ := hinv.trace_eq
    simp only [List.nil_append] at htr
    have hmem : Event.OnShutdown i arg ∈ s.trace := by rw [hab]; simp
    have hnb : Event.OnShutdown i arg ∉ mainBefore gs sm s.main := fun hm => by
      simpa [Event.isOnShutdown] using (not_isOnShutdown_of_mem_mainBefore gs sm _ _ hm).1
    have hna : Event.OnShutdown i arg ∉ mainAfter gs sm s.main := fun hm => by
      rcases mem_mainAfter gs sm _ _ hm with h1 | h1
      · cases h1
      · simp [Event.isOnError] at h1
    have hmid : Event.OnShutdown i arg ∈ mid := by
      rw [htr] at hmem
      simp only [List.mem_append] at hmem
      rcases hmem with (h1 | h1) | h1
      · exact absurd h1 hnb
      · exact h1
      · exact absurd h1 hna
    have hgos : 0 < spawned gs.callbacks.length s.main := by
      rw [← hinv.length_eq]
      apply List.length_pos_of_ne_nil
      intro hnil
      rw [hnil] at hperm
      have := hperm.mem_iff.mp hmid
      simp at this
    rw [mainBefore_of_spawned_pos gs sm s.main _ hgos] at htr hnb
    rw [htr, List.append_assoc] at hab
    exact isPrefix_of_append_eq _ _ a b _ hab hnb
  · intro a b hab
    obtain ⟨mid, htr, hperm⟩ := hinv.trace_eq
    simp only [List.nil_append] at htr
    have hmem : Event.ShutdownFinish ∈ s.trace := by rw [hab]; simp
    have hnb : Event.ShutdownFinish ∉ mainBefore gs sm s.main ++ mid := fun hm => by
      simp only [List.mem_append] at hm
      rcases hm with h1 | h1
      · unfold mainBefore at h1
        split at h1
        · simp at h1
        · simp at h1
        · simp only [List.mem_cons] at h1
          rcases h1 with h2 | h2
          · cases h2
          · simpa [Event.isOnError] using isOnError_of_mem_ReportError gs _ _ h2
      · simpa [Event.isHook] using
          not_isHook_of_mem_scripts gs sm s.gos _ (hperm.mem_iff.mp h1)
    have hafter : Event.ShutdownFinish ∈ mainAfter gs sm s.main := by
      rw [htr] at hmem
      simp only [List.mem_append] at hmem hnb
      rcases hmem with h1 | h1
      · exact absurd h1 hnb
      · exact h1
    have hpw : pastWait s.main = true := by
      cases hm : s.main <;> simp_all [mainAfter, pastWait]
    rw [hinv.scripts_of_pastWait hpw] at hperm
    have hB : mainBefore gs sm s.main
        = Event.ShutdownStart :: (ReportError gs sm.ShutdownStart).2 := by
      cases hm : s.main <;> simp_all [mainBefore, pastWait]
    obtain ⟨rest, hrest, hrestErr⟩ : ∃ rest, mainAfter gs sm s.main
        = Event.ShutdownFinish :: rest ∧ ∀ e ∈ rest, e.isOnError = true := by
      cases hm : s.main <;> simp_all [mainAfter, pastWait]
      exact fun e he => isOnError_of_mem_ReportError gs _ e he
    rw [hrest] at htr
    rw [htr] at hab
    have hnr : Event.ShutdownFinish ∉ rest := fun hm => by
      simpa [Event.isOnError] using hrestErr _ hm
    obtain ⟨ha, hb⟩ := split_unique _ _ a b _ hab hnb hnr
    subst ha hb
    refine ⟨fun i cb hcb => ?_, fun e he => ?_⟩
    · have hret := return_mem_scriptsFrom gs sm gs.callbacks 0 i cb hcb
      have hent := entry_mem_scriptsFrom gs sm gs.callbacks 0 i cb hcb
      simp only [Nat.add_zero] at hret hent
      exact ⟨List.mem_append_right _ (hperm.mem_iff.mpr hent),
        List.mem_append_right _ (hperm.mem_iff.mpr hret)⟩
    · have := hrestErr e he
      cases e <;> simp_all [Event.isOnError, Event.isOnShutdown, Event.isReturnOf]

/-- C5 at a concrete input: three callbacks run in lockstep, so that every callback is
entered before any returns. -/
theorem StartShutdown_hooks_around_callbacks_witness :
    ∃ s, StartShutdown (addCallbacks New testCallback 3) testManager [] (lockstepSchedule 3)
        = some s ∧
      s.trace.count Event.ShutdownStart = 1 ∧ s.trace.count Event.ShutdownFinish = 1 := by
  obtain ⟨s, hs, hret⟩ := exists_of_map_main
    (StartShutdown (addCallbacks New testCallback 3) testManager [] (lockstepSchedule 3))
    MainPc.ret (by decide)
  exact ⟨s, hs,
    (StartShutdown_hooks_around_callbacks (addCallbacks New testCallback 3) testManager
      _ s hs).2.1 hret⟩

/-- C2. Managers registered with `AddShutdownManager` are kept in registration order, and
`Start` calls `Start` on them in that order, passing the coordinator itself. When the
first manager that fails has index `k` and fails with `err`, `Start` returns exactly
`err` and the calls made are those of the managers `0..k`, once each and none beyond
`k`; when no manager fails, `Start` returns nil and every manager was started once. -/
theorem Start_fails_fast (gs : GracefulShutdown) :
    (∀ ms : List ShutdownManager, (ms.foldl AddShutdownManager New).managers = ms) ∧
    (∀ c ∈ (Start gs).2, c.gs = gs) ∧
    (∀ k m err, gs.managers[k]? = some m → m.Start = some err →
      (∀ j m1, j < k → gs.managers[j]? = some m1 → m1.Start = none) →
      (Start gs).1 = some err ∧ (Start gs).2.map (fun c => c.index) = List.range (k + 1)) ∧
    ((∀ m ∈ gs.managers, m.Start = none) →
      (Start gs).1 = none ∧
      (Start gs).2.map (fun c => c.index) = List.range gs.managers.length) := by
  refine ⟨fun ms => by simp [managers_foldl_AddShutdownManager, New], ?_, ?_, ?_⟩
  · intro c hc
    by_cases hall : ∀ m ∈ gs.managers, m.Start = none
    · rw [Start, Start.loop_all_ok gs gs.managers 0 [] hall] at hc
      simp only [List.nil_append, List.mem_map] at hc
      obtain ⟨j, _, hj⟩ := hc
      rw [← hj]
    · obtain ⟨k, m, err, hk, herr, hbefore⟩ := exists_first_failure gs.managers hall
      rw [Start, Start.loop_first_failure gs gs.managers 0 [] k m err hk herr hbefore] at hc
      simp only [List.nil_append, List.mem_map] at hc
      obtain ⟨j, _, hj⟩ := hc
      rw [← hj]
  · intro k m err hk herr hbefore
    rw [Start, Start.loop_first_failure gs gs.managers 0 [] k m err hk herr hbefore]
    simp [List.range_eq_range', Function.comp_def]
  · intro hall
    rw [Start, Start.loop_all_ok gs gs.managers 0 [] hall]
    simp [List.range_eq_range', Function.comp_def]

/-- C2 at the managers `[1, 2, 3]` with 2 failing: `Start` returns the error of 2 and has
called `Start` on 1 and 2 only. -/
theorem Start_fails_fast_witness :
    (Start threeManagers).1 = some "manager 2 failed" ∧
    (Start threeManagers).2.map (fun c => c.index) = [0, 1] :=
  (Start_fails_fast threeManagers).2.2.1 1
    { GetName := "2", Start := some "manager 2 failed", ShutdownStart := none,
      ShutdownFinish := none }
    "manager 2 failed" rfl rfl
    (fun j m1 hj hm1 => by
      have hj0 : j = 0 := by omega
      subst hj0
      simp [threeManagers, AddShutdownManager, New] at hm1
      rw [← hm1])

/-- C4. `ReportError(err)` calls `OnError` if and only if `err` is non-nil and an error
handler is set, and then exactly once, with `err`; otherwise it makes no call. In every
case the coordinator is returned unchanged. -/
theorem ReportError_forwards (gs : GracefulShutdown) (err : Option GoError) :
    (ReportError gs err).1 = gs ∧
    ((ReportError gs err).2 ≠ [] ↔ (err ≠ none ∧ gs.errorHandler ≠ none)) ∧
    (∀ e h, err = some e → gs.errorHandler = some h →
      (ReportError gs err).2 = [Event.OnError h e]) ∧
    ((err = none ∨ gs.errorHandler = none) → (ReportError gs err).2 = []) := by
  refine ⟨ReportError_fst gs err, ?_, ?_, ?_⟩
  · unfold ReportError
    cases err <;> cases gs.errorHandler <;> simp
  · intro e h he hh
    unfold ReportError
    rw [he, hh]
  · intro h
    unfold ReportError
    rcases h with h | h
    · rw [h]
    · rw [h]
      cases err <;> rfl

/-- C4 at concrete inputs: an error with a handler set is forwarded once; an error with
no handler set, and a nil error, are dropped. -/
theorem ReportError_forwards_witness :
    (ReportError sampleCoordinator (some "boom")).2 = [Event.OnError sampleHandler "boom"] ∧
    (ReportError New (some "boom")).2 = [] ∧
    (ReportError sampleCoordinator none).2 = [] :=
  ⟨(ReportError_forwards sampleCoordinator (some "boom")).2.2.1 "boom" sampleHandler rfl rfl,
   (ReportError_forwards New (some "boom")).2.2.2 (Or.inr rfl),
   (ReportError_forwards sampleCoordinator none).2.2.2 (Or.inl rfl)⟩

/-- C9. `StartShutdown` has no guard: the coordinator has no flag, every state of an
execution holds the coordinator unchanged, a second call after the first has returned
can always be made and run to its return, and where the first call alone has called
`ShutdownStart` once, the `N` callbacks once each and `ShutdownFinish` once, after the
second call `ShutdownStart` was called twice, every one of the `N` callbacks twice
(`2 N` entries in all) and `ShutdownFinish` twice. -/
theorem StartShutdown_twice_runs_twice (gs : GracefulShutdown) (sm : ShutdownManager)
    (schedule1 schedule2 : List Tid) (s1 s2 : State)
    (h : StartShutdownTwice gs sm schedule1 schedule2 = some (s1, s2))
    (hret2 : s2.main = MainPc.ret) :
    (∀ schedule s, StartShutdown gs sm [] schedule = some s → s.gs = gs) ∧
    s1.main = MainPc.ret ∧ s1.gs = gs ∧ s2.gs = gs ∧
    (∃ schedule s, StartShutdown s1.gs sm s1.trace schedule = some s ∧ s.main = MainPc.ret) ∧
    s1.trace.count Event.ShutdownStart = 1 ∧ s2.trace.count Event.ShutdownStart = 2 ∧
    s1.trace.countP Event.isOnShutdown = gs.callbacks.length ∧
    s2.trace.countP Event.isOnShutdown = 2 * gs.callbacks.length ∧
    (∀ i, i < gs.callbacks.length →
      s2.trace.countP (Event.isOnShutdownOf i) = 2 ∧
      s2.trace.countP (Event.isReturnOf i) = 2) ∧
    s1.trace.count Event.ShutdownFinish = 1 ∧ s2.trace.count Event.ShutdownFinish = 2 := by
  unfold StartShutdownTwice at h
  split at h
  · cases h
  · rename_i t1 h1
    split at h
    · rename_i hret1
      split at h
      · cases h
      · rename_i t2 h2
        simp only [Option.some.injEq, Prod.mk.injEq] at h
        obtain ⟨rfl, rfl⟩ := h
        obtain ⟨hgs1, a1, a2, a3, a4⟩ := counts_at_return h1 hret1
        rw [hgs1] at h2
        obtain ⟨hgs2, b1, b2, b3, b4⟩ := counts_at_return h2 hret2
        refine ⟨fun schedule s hs => (Inv.of_StartShutdown hs).gs_eq, hret1, hgs1, hgs2,
          ?_, ?_, ?_, ?_, ?_, ?_, ?_, ?_⟩
        · obtain ⟨more, s, hs, hr⟩ := exists_complete t1.gs sm t1.trace
            (init t1.gs sm t1.trace) (Inv.at_init t1.gs sm t1.trace)
          exact ⟨more, s, hs, hr⟩
        · rw [a1]; simp
        · rw [b1, a1]; simp
        · rw [a3]; simp
        · rw [b3, a3]; simp; omega
        · intro i hi
          rw [(b4 i hi).1, (a4 i hi).1, (b4 i hi).2, (a4 i hi).2]
          simp
        · rw [a2]; simp
        · rw [b2, a2]; simp
    · cases h

/-- C9 at a concrete input: two calls in succession on a coordinator with two callbacks
call `ShutdownStart` twice and enter a callback four times. -/
theorem StartShutdown_twice_runs_twice_witness :
    ∃ s1 s2, StartShutdownTwice sampleCoordinator failingManager (sequentialSchedule 2)
        (lockstepSchedule 2) = some (s1, s2) ∧
      s2.trace.count Event.ShutdownStart = 2 ∧ s2.trace.countP Event.isOnShutdown = 4 ∧
      s2.trace.count Event.ShutdownFinish = 2 := by
  obtain ⟨s1, s2, h, _, hret2⟩ := exists_of_StartShutdownTwice sampleCoordinator
    failingManager (sequentialSchedule 2) (lockstepSchedule 2) MainPc.ret MainPc.ret (by decide)
  have key := StartShutdown_twice_runs_twice sampleCoordinator failingManager _ _ s1 s2 h
    hret2
  exact ⟨s1, s2, h, key.2.2.2.2.2.2.1, key.2.2.2.2.2.2.2.2.1, key.2.2.2.2.2.2.2.2.2.2.2⟩

end shutdown

/-! ## The cancellation-token coordinator: properties -/

namespace cgracefulshutdown

/-- C7. With an error handler `h` set, `handleShutdown` does not panic, leaves the
coordinator unchanged, and makes exactly these calls: `Execute` on every callback in
registration order, each followed by one `HandleError` when and only when it returned an
error (a failure does not stop the later callbacks); then `BeginShutdown` on every
manager in registration order; then `EndShutdown` on every manager in registration
order. -/
theorem handleShutdown_trace (gs : GracefulShutdown) (h : ErrorHandler)
    (hset : gs.errorHandler = some h) :
    (handleShutdown gs).fault = none ∧ (handleShutdown gs).gs = gs ∧
    (handleShutdown gs).trace
      = executeCalls h gs.callbacks
        ++ (List.range gs.shutdownManagers.length).map Event.BeginShutdown
        ++ (List.range gs.shutdownManagers.length).map Event.EndShutdown := by
  unfold handleShutdown
  rw [handleShutdown.callbacks_of_handler gs h hset]
  simp [executeCalls, List.enum, handleShutdown.managers_eq, List.range_eq_range']

/-- C7 at a concrete input: two callbacks, the first failing, and two managers. -/
theorem handleShutdown_trace_witness :
    (handleShutdown withHandler).trace
      = [Event.Execute 0,
         Event.HandleError sampleHandler (some "error executing shutdown callback: disk full"),
         Event.Execute 1, Event.BeginShutdown 0, Event.BeginShutdown 1,
         Event.EndShutdown 0, Event.EndShutdown 1] :=
  (handleShutdown_trace withHandler sampleHandler rfl).2.2.trans (by decide)

/-- C8 fails on the code. With no error handler set, `ReportError` panics on the nil
`errorHandler` for every error (for one made by `NewGracefulShutdown` in particular)
instead of dropping it; with a handler set, `ReportError` calls `HandleError` whatever
the error, nil included; and `handleShutdown` on a coordinator with no handler panics at
the first failing callback, after which neither the second callback nor any manager's
`BeginShutdown` or `EndShutdown` is called. -/
theorem ReportError_without_handler_panics :
    (ReportError (NewGracefulShutdown "app") (some "boom")).fault = some Fault.nilDereference ∧
    (∀ (gs : GracefulShutdown) (err : Option GoError), gs.errorHandler = none →
      (ReportError gs err).fault = some Fault.nilDereference ∧ (ReportError gs err).trace = []) ∧
    (ReportError withHandler none).trace = [Event.HandleError sampleHandler none] ∧
    (∀ (gs : GracefulShutdown) (h : ErrorHandler) (err : Option GoError),
      gs.errorHandler = some h → (ReportError gs err).trace = [Event.HandleError h err]) ∧
    (handleShutdown noHandler).fault = some Fault.nilDereference ∧
    (handleShutdown noHandler).trace = [Event.Execute 0] := by
  refine ⟨by decide, ?_, by decide, ?_, by decide, by decide⟩
  · intro gs err h
    simp [ReportError, h]
  · intro gs h err hset
    simp [ReportError, hset]

/-- C10. For a coordinator made by `NewGracefulShutdown` and any sequence of
registrations and calls of `Start`: `shutdownStarted` is still false, so the first
`StartShutdown` reaches the call of `shutdownCancel`, and that function is non-nil if
and only if `Start` is among the calls made. If it is, `StartShutdown` calls the cancel
function once; if not, `StartShutdown` sets `shutdownStarted` and then panics on the nil
function. `Start` assigns the context and the cancel function before it starts any
manager: they are set whether or not a manager fails, and when the first failing manager
has index `k` and error text `msg`, `Start` has called `Start` on the managers `0..k`,
returns the error `error starting shutdown manager: msg` and does not launch
`handleShutdown`. -/
theorem StartShutdown_cancel_iff_Start (name : String) (ops : List Op) :
    (applyOps (NewGracefulShutdown name) ops).shutdownStarted = false ∧
    ((applyOps (NewGracefulShutdown name) ops).shutdownCancel ≠ none
      ↔ ops.any Op.isStart = true) ∧
    (ops.any Op.isStart = true →
      (StartShutdown (applyOps (NewGracefulShutdown name) ops)).fault = none ∧
      (StartShutdown (applyOps (NewGracefulShutdown name) ops)).trace = [Event.Cancel]) ∧
    (ops.any Op.isStart = false →
      (StartShutdown (applyOps (NewGracefulShutdown name) ops)).fault
        = some Fault.nilDereference ∧
      (StartShutdown (applyOps (NewGracefulShutdown name) ops)).trace = [] ∧
      (StartShutdown (applyOps (NewGracefulShutdown name) ops)).gs.shutdownStarted = true) ∧
    (∀ (gs : GracefulShutdown) (ctx : Context),
      (Start gs ctx).gs.shutdownCtx = some (WithCancel ctx).1 ∧
      (Start gs ctx).gs.shutdownCancel = some (WithCancel ctx).2 ∧
      (∀ k m msg, gs.shutdownManagers[k]? = some m → m.Start = some msg →
        (∀ j m1, j < k → gs.shutdownManagers[j]? = some m1 → m1.Start = none) →
        (Start gs ctx).err = some ("error starting shutdown manager: " ++ msg) ∧
        (Start gs ctx).launched = false ∧
        (Start gs ctx).trace = (List.range (k + 1)).map Event.Start) ∧
      ((∀ m ∈ gs.shutdownManagers, m.Start = none) →
        (Start gs ctx).err = none ∧ (Start gs ctx).launched = true)) := by
  have hstarted : (applyOps (NewGracefulShutdown name) ops).shutdownStarted = false :=
    applyOps_shutdownStarted (NewGracefulShutdown name) ops
  have hcancel : (applyOps (NewGracefulShutdown name) ops).shutdownCancel
      = if ops.any Op.isStart then some CancelFunc.cancelDerived else none :=
    applyOps_shutdownCancel (NewGracefulShutdown name) ops
  refine ⟨hstarted, ?_, ?_, ?_, ?_⟩
  · rw [hcancel]
    cases ops.any Op.isStart <;> simp
  · intro hany
    rw [hany] at hcancel
    simp [StartShutdown, hstarted, hcancel]
  · intro hany
    rw [hany] at hcancel
    simp [StartShutdown, hstarted, hcancel]
  · intro gs ctx
    refine ⟨by simp [Start, Start.loop_gs], by simp [Start, Start.loop_gs], ?_, ?_⟩
    · intro k m msg hk hmsg hbefore
      have := Start.loop_fails_at
        { gs with shutdownCtx := some (WithCancel ctx).1,
                  shutdownCancel := some (WithCancel ctx).2 }
        gs.shutdownManagers 0 [] k m msg hk hmsg hbefore
      simpa [Start, List.range_eq_range'] using this
    · intro hall
      have := Start.loop_no_failure
        { gs with shutdownCtx := some (WithCancel ctx).1,
                  shutdownCancel := some (WithCancel ctx).2 }
        gs.shutdownManagers 0 [] hall
      exact ⟨this.1, this.2.1⟩

/-- C10 at concrete inputs: on a fresh coordinator `StartShutdown` panics with
`shutdownStarted` set; after a `Start` whose only manager failed the cancel function is
set and `StartShutdown` calls it. -/
theorem StartShutdown_cancel_iff_Start_witness :
    ((StartShutdown (applyOps (NewGracefulShutdown "app") [])).fault
        = some Fault.nilDereference ∧
      (StartShutdown (applyOps (NewGracefulShutdown "app") [])).trace = [] ∧
      (StartShutdown (applyOps (NewGracefulShutdown "app") [])).gs.shutdownStarted = true) ∧
    ((StartShutdown (applyOps (NewGracefulShutdown "app")
        [Op.AddShutdownManager failingStart, Op.Start { done := false }])).fault = none ∧
      (StartShutdown (applyOps (NewGracefulShutdown "app")
        [Op.AddShutdownManager failingStart, Op.Start { done := false }])).trace
        = [Event.Cancel]) :=
  ⟨(StartShutdown_cancel_iff_Start "app" []).2.2.2.1 rfl,
   (StartShutdown_cancel_iff_Start "app"
      [Op.AddShutdownManager failingStart, Op.Start { done := false }]).2.2.1 rfl⟩

/-- C6 fails on the code. On a coordinator with no error handler whose first callback
fails, after `Start` has succeeded and `StartShutdown` has been called twice,
`handleShutdown` panics at the first callback: the process has crashed with only the
cancel function and the first callback's `Execute` called, and under no schedule is the
second callback's `Execute` or a manager's `BeginShutdown` or `EndShutdown` ever called.
On a coordinator with an error handler, while `handleShutdown` holds the mutex a second
call of `StartShutdown` cannot move: it does not return at once. On a coordinator on
which `StartShutdown` has been called before `Start` (where it set `shutdownStarted` and
then panicked on the nil cancel function), after `Start` has succeeded a call of
`StartShutdown` does not call the cancel function at all. And a second call of `Start`
succeeds as the first does and launches a second `handleShutdown`. -/
theorem StartShutdown_guard_counterexample :
    (startThenShutdown "app" noHandlerRegistrations { done := false } 2 callersThenLoops).map
        (fun s => (s.crashed, s.trace))
      = some (true, [Event.Cancel, Event.Execute 0]) ∧
    (¬ ∃ schedule s,
      startThenShutdown "app" noHandlerRegistrations { done := false } 2 schedule = some s ∧
      (Event.Execute 1 ∈ s.trace ∨ Event.BeginShutdown 0 ∈ s.trace
        ∨ Event.EndShutdown 0 ∈ s.trace)) ∧
    (startThenShutdown "app" withHandlerRegistrations { done := false } 2
        handlerHoldsMutex).map
        (fun s => (s.handler, s.callers, (step s (Tid.caller 1)).isSome))
      = some (HandlerPc.locked, [CallerPc.returned, CallerPc.entry], false) ∧
    ((Start (StartShutdown withHandler).gs { done := false }).err = none ∧
      (StartShutdown (Start (StartShutdown withHandler).gs { done := false }).gs).trace = []) ∧
    ((Start withHandler { done := false }).launched = true ∧
      (Start (Start withHandler { done := false }).gs { done := false }).launched = true) := by
  refine ⟨by decide, ?_, by decide, by decide, by decide⟩
  rintro ⟨schedule, s, hs, hmem⟩
  unfold startThenShutdown at hs
  split at hs
  · have key := (trace_subset (Start (register "app" noHandlerRegistrations)
        { done := false }).gs schedule _ s
      (SameRegistry.refl _) (by simp [cgracefulshutdown.init]) hs).2
    have hH : (handleShutdown (Start (register "app" noHandlerRegistrations)
        { done := false }).gs).trace = [Event.Execute 0] := by decide
    rw [hH] at key
    rcases hmem with h | h | h <;>
    · rcases key _ h with h1 | h1
      · cases h1
      · simp at h1
  · cases hs

/-- C6 as amended. For a coordinator made by `NewGracefulShutdown` on which only the
registration methods have been called (so neither `Start` nor `StartShutdown` has been
called on it before) and on which `handleShutdown` does not panic (which is so when an
error handler is set, and when no callback fails), after its one call of `Start(ctx)` has
succeeded and with `k >= 1` calls of `StartShutdown`, under every schedule: the process
does not crash; the execution makes at most `3 k + 5` steps and can always be run on
until every call has returned and `handleShutdown` has returned; the cancel function,
each callback's `Execute` and each manager's `BeginShutdown` and `EndShutdown` are called
at most once, and exactly once when all have returned, with `shutdownStarted` set. The
body of a call that finds `shutdownStarted` set changes nothing and makes no call; a call
that asks for the mutex while another thread holds it cannot move. -/
theorem StartShutdown_guard (name : String) (registrations : List Registration)
    (ctx : Context) (k : Nat) (hk : 1 ≤ k)
    (hok : (handleShutdown (register name registrations)).fault = none)
    (schedule : List Tid) (s : State)
    (hs : startThenShutdown name registrations ctx k schedule = some s) :
    s.crashed = false ∧
    schedule.length ≤ 3 * k + 5 ∧
    (∃ more s1, run s more = some s1 ∧ s1.finished = true) ∧
    s.trace.count Event.Cancel ≤ 1 ∧
    (∀ i, s.trace.count (Event.Execute i) ≤ 1 ∧ s.trace.count (Event.BeginShutdown i) ≤ 1
      ∧ s.trace.count (Event.EndShutdown i) ≤ 1) ∧
    (s.finished = true →
      s.gs.shutdownStarted = true ∧
      s.trace.count Event.Cancel = 1 ∧
      (∀ i, i < (register name registrations).callbacks.length →
        s.trace.count (Event.Execute i) = 1) ∧
      (∀ j, j < (register name registrations).shutdownManagers.length →
        s.trace.count (Event.BeginShutdown j) = 1 ∧
        s.trace.count (Event.EndShutdown j) = 1)) ∧
    (∀ gs : GracefulShutdown, gs.shutdownStarted = true →
      (StartShutdown gs).gs = gs ∧ (StartShutdown gs).trace = [] ∧
      (StartShutdown gs).fault = none) ∧
    (∀ j, s.callers[j]? = some CallerPc.entry → s.mutex = true →
      step s (Tid.caller j) = none) ∧
    (∀ (gs : GracefulShutdown) (h : ErrorHandler), gs.errorHandler = some h →
      (handleShutdown gs).fault = none) ∧
    (∀ gs : GracefulShutdown, (∀ cb ∈ gs.callbacks, cb.Execute = none) →
      (handleShutdown gs).fault = none) := by
  obtain ⟨hinv, hrun⟩ := Inv.of_startThenShutdown name registrations ctx k hok schedule s hs
  have hG := Start_gs (register name registrations) ctx
  have hokG : (handleShutdown (Start (register name registrations) ctx).gs).fault = none := by
    rw [(handleShutdown_Start (register name registrations) ctx).2]; exact hok
  obtain ⟨c1, c2, c3, c4⟩ :=
    count_handleShutdown (Start (register name registrations) ctx).gs hokG
  have hcb : (Start (register name registrations) ctx).gs.callbacks
      = (register name registrations).callbacks := by rw [hG]
  have hms : (Start (register name registrations) ctx).gs.shutdownManagers
      = (register name registrations).shutdownManagers := by rw [hG]
  rw [hcb] at c2
  rw [hms] at c3 c4
  have hcount : ∀ e, s.trace.count e
      = (expectedTrace (Start (register name registrations) ctx).gs s).count e :=
    fun e => hinv.trace_perm.count_eq e
  refine ⟨hinv.not_crashed, ?_, ?_, ?_, ?_, ?_, StartShutdown_of_started, ?_,
    handleShutdown_of_handler, handleShutdown_of_ok⟩
  · have h1 := remaining_run_le schedule hrun
    have h2 := remaining_init_le (Start (register name registrations) ctx).gs k
    have h3 : remaining (init name registrations ctx k) ≤ 3 * k + 5 := h2
    omega
  · exact hinv.reaches_finished hk hokG (WithCancel ctx).2 (by rw [hG]) (remaining s) s
      (Nat.le_refl _)
  · rw [hcount, count_expectedTrace, c1]
    cases s.gs.shutdownStarted <;> cases s.handler.ranLoops <;> simp
  · intro i
    rw [hcount, hcount, hcount, count_expectedTrace, count_expectedTrace, count_expectedTrace,
      c2, c3, c4]
    cases s.gs.shutdownStarted <;> cases s.handler.ranLoops <;> simp <;>
      (try split_ifs) <;> simp
  · intro hfin
    obtain ⟨hst, hran⟩ := started_of_finished hk hinv hfin
    refine ⟨hst, ?_, fun i hi => ?_, fun j hj => ⟨?_, ?_⟩⟩
    · rw [hcount, count_expectedTrace, c1, hst, hran]
      simp
    · rw [hcount, count_expectedTrace, c2, hst, hran]
      simp [hi]
    · rw [hcount, count_expectedTrace, c3, hst, hran]
      simp [hj]
    · rw [hcount, count_expectedTrace, c4, hst, hran]
      simp [hj]
  · intro j hj hm
    simp [cgracefulshutdown.step, hinv.not_crashed, stepCaller, hj, hm]

/-- C6 as amended, at a concrete input: an error handler, two callbacks of which the
first fails, two managers, and two calls of `StartShutdown`. -/
theorem StartShutdown_guard_witness :
    ∃ s, startThenShutdown "app" withHandlerRegistrations { done := false } 2 callersFirst
        = some s ∧
      s.finished = true ∧ s.trace.count Event.Cancel = 1 ∧
      s.trace.count (Event.Execute 0) = 1 ∧ s.trace.count (Event.Execute 1) = 1 ∧
      s.trace.count (Event.BeginShutdown 1) = 1 ∧ s.trace.count (Event.EndShutdown 1) = 1 := by
  obtain ⟨s, hs, hfin⟩ := exists_of_map_finished
    (startThenShutdown "app" withHandlerRegistrations { done := false } 2 callersFirst) true
    (by decide)
  have key := (StartShutdown_guard "app" withHandlerRegistrations { done := false } 2
    (by decide) (by decide) callersFirst s hs).2.2.2.2.2.1 hfin
  exact ⟨s, hs, hfin, key.2.1, key.2.2.1 0 (by decide), key.2.2.1 1 (by decide),
    (key.2.2.2 1 (by decide)).1, (key.2.2.2 1 (by decide)).2⟩

end cgracefulshutdown
